import Mathlib

/-!
Shallow embedding of the `telnet-codenames` room game engine
(`src/codenames.rs`, `src/game.rs`) for checking the natural-language
specification against the code.

Modelling conventions:
* `SocketAddr` is abstracted as `Nat`; the user-state `HashMap<SocketAddr, User>`
  is a function `Nat → Option User`; the room registry `HashMap<i32, GameRoom>`
  is an association list `List (Int × GameRoom)`; a room's `HashSet<SocketAddr>`
  of players is a duplicate-free `List Nat`.
* Rust `i32` fields (scores, guess counters, clue counts, room keys) are
  modelled as `Int`; none of the verified claims exercises `i32` overflow.
* Code that can panic (an `unwrap` on a map lookup or on an absent player
  overlay) is modelled in an `Option` monad: `none` is a panic.
* The randomness of `rand::IteratorRandom::choose` is modelled by explicit
  choice sequences (`List Nat`): each draw takes the next choice modulo the
  number of remaining candidates, which covers every possible random outcome.
* Iteration order of `HashMap`/`HashSet` is modelled as list order; no
  verified claim depends on the (nondeterministic) hash iteration order.
-/

namespace Codenames

/-- Room lifecycle state (`CodenamesState` in `codenames.rs`). -/
inductive CodenamesState where
  | WaitingToStart
  | RedTurn
  | BlueTurn
  | GameEnd
deriving DecidableEq, Repr

/-- Team of a player (`CodenamesTeam`). -/
inductive CodenamesTeam where
  | Red
  | Blue
  | Floating
deriving DecidableEq, Repr

/-- `fmt::Display` of `CodenamesTeam`. -/
def team_display : CodenamesTeam → String
  | .Red => "Red"
  | .Blue => "Blue"
  | .Floating => "Floating"

/-- `fmt::Debug` of `CodenamesTeam` (derived `Debug` prints the variant name). -/
def team_debug : CodenamesTeam → String
  | .Red => "Red"
  | .Blue => "Blue"
  | .Floating => "Floating"

/-- Role of a player (`CodenamesRole`). -/
inductive CodenamesRole where
  | Spymaster
  | Teammate
  | Spectator
deriving DecidableEq, Repr

/-- `fmt::Debug` of `CodenamesRole`. -/
def role_debug : CodenamesRole → String
  | .Spymaster => "Spymaster"
  | .Teammate => "Teammate"
  | .Spectator => "Spectator"

/-- Kind of a card (`CodenamesCardType`). -/
inductive CodenamesCardType where
  | RedAgent
  | BlueAgent
  | Assassin
  | Bystander
deriving DecidableEq, Repr

/-- `fmt::Display` of `CodenamesCardType` (the kind marker used on the board). -/
def type_marker : CodenamesCardType → String
  | .RedAgent => "R"
  | .BlueAgent => "B"
  | .Assassin => "A"
  | .Bystander => " "

/-- One card of the board (`CodenamesCard`). -/
structure CodenamesCard where
  word : String
  card_type : CodenamesCardType
  flipped : Bool
deriving DecidableEq, Repr

/-- A spymaster clue (`CodenamesClue`). -/
structure CodenamesClue where
  cards_to_match : Int
  clue : String
deriving DecidableEq, Repr

/-- Per-session overlay (`CodenamesPlayer`); `chat_queue` is the FIFO of
pending lines, `state_prompted` the prompt-dedup marker. -/
structure CodenamesPlayer where
  team : CodenamesTeam
  role : CodenamesRole
  chat_queue : List String
  state_prompted : Option CodenamesState
deriving DecidableEq, Repr

/-- `Default for CodenamesPlayer`. -/
def default_player : CodenamesPlayer :=
  { team := .Floating, role := .Spectator, chat_queue := [], state_prompted := none }

/-- The 5×5 board `[[CodenamesCard; 5]; 5]`, as a list of rows. -/
abbrev Board := List (List CodenamesCard)

/-- One game room (`CodenamesRoom`). -/
structure CodenamesRoom where
  state : CodenamesState
  players : List Nat
  red_score : Int
  blue_score : Int
  guesses : Int
  assassin_found_by : Option CodenamesTeam
  clue : Option CodenamesClue
  board : Board
deriving DecidableEq, Repr

/-! ### Rust `format!` padding helpers -/

/-- A run of `n` spaces. -/
def spaces (n : Nat) : String := String.mk (List.replicate n ' ')

/-- `format!("{:-<n}", "")`: a run of `n` hyphens. -/
def hyphens (n : Nat) : String := String.mk (List.replicate n '-')

/-- Rust `{:>w}`: right-align `s` in width `w` (no truncation). -/
def padLeft (s : String) (w : Nat) : String := spaces (w - s.length) ++ s

/-- Rust `{:^w}`: center `s` in width `w`; the extra space of an odd pad
goes to the right, as in Rust's formatter. -/
def padCenter (s : String) (w : Nat) : String :=
  let pad := w - s.length
  spaces (pad / 2) ++ s ++ spaces (pad - pad / 2)

/-! ### Rust `str` primitives, modelled over the character list

Lean's built-in `String` operations are compiled externs that do not reduce
inside the kernel, so the Rust string operations the engine uses are modelled
directly over `String.data`. -/

/-- Rust `str::starts_with`. -/
def rs_starts_with (s p : String) : Bool := p.data.isPrefixOf s.data

/-- The Rust byte slice `&s[n..]` (used by the engine only with `n = 1` after
a one-byte `!` prefix, where byte and character indices agree). -/
def rs_drop (s : String) (n : Nat) : String := String.mk (s.data.drop n)

/-- Rust `str::trim`: strip leading and trailing whitespace. -/
def rs_trim (s : String) : String :=
  String.mk (((s.data.dropWhile Char.isWhitespace).reverse.dropWhile
    Char.isWhitespace).reverse)

/-- Rust `str::split(sep)`: split at every separator, keeping empty pieces. -/
def rs_split (s : String) (sep : Char) : List String :=
  (s.data.splitOn sep).map String.mk

/-- Digit-string to number; `none` unless nonempty and all ASCII digits. -/
def parse_digits (l : List Char) : Option Nat :=
  if l.isEmpty then none
  else if l.all Char.isDigit then
    some (l.foldl (fun acc c => acc * 10 + (c.toNat - 48)) 0)
  else none

/-- Rust `i32::from_str`: optional sign, digits, and the `i32` range check. -/
def rs_parse_i32 (s : String) : Option Int :=
  let signed := fun (l : List Char) (sign : Int) =>
    match parse_digits l with
    | none => none
    | some n =>
      let v : Int := sign * (n : Int)
      if -2147483648 ≤ v ∧ v ≤ 2147483647 then some v else none
  match s.data with
  | '+' :: rest => signed rest 1
  | '-' :: rest => signed rest (-1)
  | l => signed l 1

/-- Rust `str::len`: the UTF-8 byte length. -/
def rs_utf8_len (s : String) : Nat := s.data.foldl (fun n c => n + c.utf8Size) 0

/-! ### Board rendering (`CodenamesRoom::get_board`) -/

/-- The flipped marker: `"X"` if flipped else `" "`. -/
def flip_marker (c : CodenamesCard) : String := if c.flipped then "X" else " "

/-- One cell of the rendered board, exactly as in `get_board`: a teammate
looking at an unflipped card sees only the word; everyone else (or a flipped
card) sees word, kind and flipped marker. -/
def render_card (role : CodenamesRole) (c : CodenamesCard) : String :=
  if CodenamesRole.Teammate = role ∧ c.flipped = false then
    "|" ++ padLeft (flip_marker c) 1 ++ padCenter c.word 14
  else
    "|" ++ padLeft (flip_marker c) 1 ++ padCenter c.word 13 ++
      padLeft (type_marker c.card_type) 1 ++ " "

/-- `CodenamesRoom::get_board`: the role-filtered textual board. The `team`
parameter is accepted (as in the source) but unused by the renderer. -/
def CodenamesRoom.get_board (room : CodenamesRoom) (_team : CodenamesTeam)
    (role : CodenamesRole) : String :=
  hyphens 81 ++ "\r\n" ++
    String.join (room.board.map (fun row =>
      String.join (row.map (render_card role)) ++ "|\r\n" ++ hyphens 81 ++ "\r\n"))

/-- The all-revealing cell format (the `else` branch of `get_board`):
word, kind marker and flipped marker are all present. -/
def render_card_full (c : CodenamesCard) : String :=
  "|" ++ padLeft (flip_marker c) 1 ++ padCenter c.word 13 ++
    padLeft (type_marker c.card_type) 1 ++ " "

/-- The fully revealed board text: every cell rendered with `render_card_full`. -/
def full_board_view (b : Board) : String :=
  hyphens 81 ++ "\r\n" ++
    String.join (b.map (fun row =>
      String.join (row.map render_card_full) ++ "|\r\n" ++ hyphens 81 ++ "\r\n"))

/-- Two cards agree on everything a teammate may see: word, flipped flag,
and the kind when (and only when) the card is flipped. -/
def card_agree (c1 c2 : CodenamesCard) : Bool :=
  c1.word == c2.word && c1.flipped == c2.flipped &&
    (!c1.flipped || c1.card_type == c2.card_type)

/-- Rowwise extension of `card_agree`. -/
def row_agree : List CodenamesCard → List CodenamesCard → Bool
  | [], [] => true
  | c1 :: r1, c2 :: r2 => card_agree c1 c2 && row_agree r1 r2
  | _, _ => false

/-- Two boards differ at most in the kinds of their unflipped cards. -/
def board_agree : Board → Board → Bool
  | [], [] => true
  | r1 :: b1, r2 :: b2 => row_agree r1 r2 && board_agree b1 b2
  | _, _ => false

/-! ### Board generation (`gen_board`) -/

/-- One draw of `IteratorRandom::choose` + `Vec::remove`, with the random
index supplied by the choice `c` (reduced modulo the number of candidates);
`none` models the `unwrap` panic on an empty pool. -/
def draw {α : Type} (xs : List α) (c : Nat) : Option (α × List α) :=
  if h : 0 < xs.length then
    some (xs.get ⟨c % xs.length, Nat.mod_lt _ h⟩, xs.eraseIdx (c % xs.length))
  else none

/-- The kind pool of `gen_board`: 8 BlueAgent, 9 RedAgent, 7 Bystander,
1 Assassin, in source order. -/
def card_types_pool : List CodenamesCardType :=
  List.replicate 8 .BlueAgent ++ List.replicate 9 .RedAgent ++
    List.replicate 7 .Bystander ++ [.Assassin]

/-- The 25 sequential draws of `gen_board`: each cell takes a word and a kind
sampled without replacement, `flipped` starts `false`. -/
def gen_cards : Nat → List String → List CodenamesCardType → List Nat → List Nat →
    Option (List CodenamesCard)
  | 0, _, _, _, _ => some []
  | n + 1, ws, ts, wcs, tcs =>
    match draw ws (wcs.headD 0) with
    | none => none
    | some (w, ws') =>
      match draw ts (tcs.headD 0) with
      | none => none
      | some (t, ts') =>
        match gen_cards n ws' ts' wcs.tail tcs.tail with
        | none => none
        | some rest => some ({ word := w, card_type := t, flipped := false } :: rest)

/-- Regroup the 25 row-major cards into the 5×5 array `[[CodenamesCard; 5]; 5]`. -/
def to_board (l : List CodenamesCard) : Board :=
  [l.take 5, (l.drop 5).take 5, (l.drop 10).take 5, (l.drop 15).take 5, l.drop 20]

/-- `gen_board`. Modelled from the spec: the bundled word file
`wordlist-eng.txt` is not among the sources, so the word pool (the file split
into trimmed lines) is a parameter `words`; the spec says words are drawn
without repetition from a fixed word list. The `card_types_pool.length = 25`
check models the fatal startup `panic!` on a kind-pool size mismatch. -/
def gen_board (words : List String) (wcs tcs : List Nat) : Option Board :=
  if card_types_pool.length = 25 then
    (gen_cards 25 words card_types_pool wcs tcs).map to_board
  else none

/-- All cards of a board in row-major order. -/
def board_cards (b : Board) : List CodenamesCard := b.foldr (· ++ ·) []

/-! ### Session and server data model (`game.rs`) -/

/-- Connection mode of a session (`ServerState` in `game.rs`). -/
inductive ServerState where
  | Joined
  | UsernameEntry
  | LobbySelection
  | InvalidInput
  | InRoom
  | FatalError
deriving DecidableEq, Repr

/-- One registry slot (`GameRoom`): display name plus the lazily created game. -/
structure GameRoom where
  name : String
  impl_room : Option CodenamesRoom
deriving DecidableEq, Repr

/-- One session (`User`); `socket_addr` is the abstracted network identity. -/
structure User where
  prev_prompt : String
  state : ServerState
  prev_state : ServerState
  user_name : String
  socket_addr : Nat
  game_room_key : Option Int
  player : Option CodenamesPlayer
deriving DecidableEq, Repr

/-- The session map `HashMap<SocketAddr, User>`. -/
abbrev UserMap := Nat → Option User

/-- The room registry `HashMap<i32, GameRoom>`. -/
abbrev RoomsMap := List (Int × GameRoom)

/-- `HashMap::get` on the registry: first binding of the key. -/
def mlookup : RoomsMap → Int → Option GameRoom
  | [], _ => none
  | (k', v) :: t, k => if k' = k then some v else mlookup t k

/-- `HashMap::insert` on the registry: replace the binding if present,
append otherwise. -/
def minsert (l : RoomsMap) (k : Int) (v : GameRoom) : RoomsMap :=
  if (mlookup l k).isSome then
    l.map (fun p => if p.1 = k then (k, v) else p)
  else l ++ [(k, v)]

/-- `HashMap::remove` on the registry. -/
def mremove (l : RoomsMap) (k : Int) : RoomsMap := l.filter (fun p => p.1 ≠ k)

/-- Point update of the session map (writing back a `&mut User`). -/
def mupdate (m : UserMap) (addr : Nat) (u : User) : UserMap :=
  fun a => if a = addr then some u else m a

/-- `HashSet::insert` on a room's player set. -/
def insert_addr (a : Nat) (l : List Nat) : List Nat :=
  if l.contains a then l else a :: l

/-- Rewrite the live game of registry slot `k` (writing back a
`&mut CodenamesRoom` borrowed from the registry). -/
def set_room (rooms : RoomsMap) (k : Int) (room : CodenamesRoom) : RoomsMap :=
  match mlookup rooms k with
  | some gr => minsert rooms k { gr with impl_room := some room }
  | none => rooms

/-- `get_user_state`: look the session up by its address, inserting the
default `User` on first contact. -/
def get_user_state (m : UserMap) (addr : Nat) : User × UserMap :=
  match m addr with
  | some u => (u, m)
  | none =>
    let u : User := { prev_prompt := "", state := .Joined, prev_state := .Joined,
                      user_name := "default", socket_addr := addr,
                      game_room_key := none, player := none }
    (u, mupdate m addr u)

/-! ### Notification primitives and room helpers (`codenames.rs`) -/

/-- Append one line to a player's pending queue. -/
def push_msg (msg : String) (p : CodenamesPlayer) : CodenamesPlayer :=
  { p with chat_queue := p.chat_queue ++ [msg] }

/-- `broadcast_chat_everyone`: enqueue `chat_line.trim()` for every session
whose `socket_addr` is in the room's player set (the sender included);
sessions without an overlay are skipped by the source's `if let`. -/
def broadcast_chat_everyone (chat_line : String) (room : CodenamesRoom)
    (m : UserMap) : UserMap :=
  fun a =>
    match m a with
    | none => none
    | some u =>
      if room.players.contains u.socket_addr then
        match u.player with
        | some p => some { u with player := some (push_msg (rs_trim chat_line) p) }
        | none => some u
      else some u

/-- `broadcast_chat`: as `broadcast_chat_everyone`, but prefixed with the
speaker's name and excluding the sender. -/
def broadcast_chat (user_addr : Nat) (user_name : String) (chat_line : String)
    (room : CodenamesRoom) (m : UserMap) : UserMap :=
  fun a =>
    match m a with
    | none => none
    | some u =>
      if room.players.contains u.socket_addr ∧ u.socket_addr ≠ user_addr then
        match u.player with
        | some p => some { u with player := some (push_msg (user_name ++ ": " ++ rs_trim chat_line) p) }
        | none => some u
      else some u

/-- The `(team, role)` pairs of the room's members, in player-set order;
`none` models the `unwrap` panic of `verify_room` when a member's address is
missing from the session map. Members without an overlay contribute nothing
(the source's `if let Some(player)`). -/
def collect_pairs (m : UserMap) : List Nat → Option (List (CodenamesTeam × CodenamesRole))
  | [] => some []
  | a :: rest =>
    match m a with
    | none => none
    | some u =>
      match collect_pairs m rest with
      | none => none
      | some ps =>
        match u.player with
        | some p => some ((p.team, p.role) :: ps)
        | none => some ps

/-- The four `(team, role)` pairs the readiness check requires. -/
def required_pairs : List (CodenamesTeam × CodenamesRole) :=
  [(.Red, .Spymaster), (.Red, .Teammate), (.Blue, .Spymaster), (.Blue, .Teammate)]

/-- `verify_room`: readiness holds iff every required pair occurs at least
once among the members' `(team, role)` pairs (the source's per-pair counter
is `≥ 1` exactly when the pair occurs). -/
def verify_room (room : CodenamesRoom) (m : UserMap) : Option Bool :=
  (collect_pairs m room.players).map (fun ps =>
    required_pairs.all (fun pr => ps.contains pr))

/-- `refresh_prompt`: clear the prompt-dedup marker of every member found in
the session map; `none` models the `unwrap` panic when a member found in the
map has no overlay. -/
def refresh_prompt (room : CodenamesRoom) (m : UserMap) : Option UserMap :=
  if room.players.all (fun a =>
      match m a with
      | none => true
      | some u => u.player.isSome) then
    some (fun a =>
      match m a with
      | none => none
      | some u =>
        if room.players.contains a then
          match u.player with
          | some p => some { u with player := some { p with state_prompted := none } }
          | none => some u
        else some u)
  else none

/-- `find_card` within one row: first card whose word equals the name. -/
def find_card_row (card_name : String) : List CodenamesCard → Option CodenamesCard
  | [] => none
  | c :: cs => if c.word = card_name then some c else find_card_row card_name cs

/-- `find_card`: first card of the board (row-major) whose word equals the
guessed name. -/
def find_card (card_name : String) : Board → Option CodenamesCard
  | [] => none
  | row :: rows =>
    match find_card_row card_name row with
    | some c => some c
    | none => find_card card_name rows

/-- Set `flipped = true` on the first matching card of a row; the flag
reports whether a card was found. -/
def flip_row (card_name : String) : List CodenamesCard → List CodenamesCard × Bool
  | [] => ([], false)
  | c :: cs =>
    if c.word = card_name then ({ c with flipped := true } :: cs, true)
    else
      let (cs', found) := flip_row card_name cs
      (c :: cs', found)

/-- Set `flipped = true` on the card `find_card` returns (the write through
the mutable reference in the source). -/
def flip_board (card_name : String) : Board → Board
  | [] => []
  | row :: rows =>
    let (row', found) := flip_row card_name row
    if found then row' :: rows else row :: flip_board card_name rows

/-- The shared turn-switch sub-step of `turn_logic` (the `if switch_turn`
block): flip the active team, reset the guess counter, then override with
`GameEnd` when a win threshold is met. -/
def end_turn (team : CodenamesTeam) (room : CodenamesRoom) : CodenamesRoom :=
  let room := { room with
    state := if team = .Blue then .RedTurn else .BlueTurn,
    guesses := 0 }
  if room.red_score = 9 ∨ room.blue_score = 8 then { room with state := .GameEnd }
  else room

/-- `turn_logic`: resolve one line of input during `team`'s turn. Returns the
updated session map and room; `none` models the `unwrap` panic when the acting
address is missing from the map or carries no overlay. -/
def turn_logic (team : CodenamesTeam) (line : Option String) (m : UserMap)
    (room : CodenamesRoom) (user_addr : Nat) (user_name : String) :
    Option (UserMap × CodenamesRoom) :=
  match line with
  | none => some (m, room)
  | some line =>
    match m user_addr with
    | none => none
    | some user =>
      match user.player with
      | none => none
      | some player =>
        if team = player.team ∧ player.role = .Teammate then
          if rs_starts_with line "!!" then
            if room.guesses > 0 then some (m, end_turn team room)
            else some (m, room)
          else if rs_starts_with line "!" then
            let room := { room with guesses := room.guesses + 1 }
            let guess := rs_trim (rs_drop line 1)
            let m := broadcast_chat_everyone
              (user.user_name ++ " Guessed " ++ guess ++ "\r\n") room m
            match find_card guess room.board with
            | none =>
              some (broadcast_chat_everyone
                (guess ++ " is not a valid card name to guess\r\n") room m, room)
            | some card =>
              let room := { room with board := flip_board guess room.board }
              if card.card_type = .Assassin then
                some (m, { room with assassin_found_by := some team, state := .GameEnd })
              else
                let scored :=
                  match card.card_type with
                  | .RedAgent =>
                    ({ room with red_score := room.red_score + 1 }, team == CodenamesTeam.Blue)
                  | .BlueAgent =>
                    ({ room with blue_score := room.blue_score + 1 }, team == CodenamesTeam.Red)
                  | _ => (room, true)
                let room := scored.1
                let switch := scored.2 ||
                  (match room.clue with
                   | some clue => decide (room.guesses > clue.cards_to_match)
                   | none => false)
                match refresh_prompt room m with
                | none => none
                | some m =>
                  if switch then some (m, end_turn team room) else some (m, room)
          else some (m, room)
        else if team = player.team ∧ player.role = .Spymaster then
          match rs_split line ',' with
          | [word, number] =>
            match rs_parse_i32 (rs_trim number) with
            | some guess_number =>
              let room := { room with
                clue := some { cards_to_match := guess_number, clue := word } }
              some (broadcast_chat_everyone
                ("Spymaster Clue: " ++ word ++ ", " ++ toString guess_number ++ "\r\n")
                room m, room)
            | none => some (m, room)
          | _ => some (m, room)
        else
          some (broadcast_chat user_addr user_name line room m, room)

/-- `initialize_user_board`: ensure the session has an overlay, then resolve
its room: create the live game (with the freshly generated `fresh_board`) on
first touch, or register the session in the player set. Returns the updated
user, registry, and the room's key and value; the `none` outcome is the
fatal-error path (missing key or vanished room). -/
def init_user_board (user : User) (rooms : RoomsMap) (fresh_board : Board) :
    User × RoomsMap × Option (Int × CodenamesRoom) :=
  let user := { user with player := some (user.player.getD default_player) }
  match user.game_room_key with
  | some k =>
    match mlookup rooms k with
    | some gr =>
      match gr.impl_room with
      | none =>
        let room : CodenamesRoom :=
          { state := .WaitingToStart, players := [user.socket_addr],
            blue_score := 0, red_score := 0, clue := none, guesses := 0,
            assassin_found_by := none, board := fresh_board }
        (user, minsert rooms k { gr with impl_room := some room }, some (k, room))
      | some room =>
        let room := { room with players := insert_addr user.socket_addr room.players }
        (user, minsert rooms k { gr with impl_room := some room }, some (k, room))
    | none => ({ user with state := .FatalError }, rooms, none)
  | none => ({ user with state := .FatalError }, rooms, none)

/-! ### Prompt generation (`get_player_roles`, `codenames_turn_prompt`,
`codenames_prompt`) -/

/-- `get_player_roles`: the lobby roster text. A member missing from the
session map renders as the empty string (`map_or`); a member without an
overlay renders with the shared default (`unwrap_or_default`). -/
def get_player_roles (room : CodenamesRoom) (m : UserMap) (cur_user_addr : Nat) : String :=
  let list_str := String.join (room.players.map (fun a =>
    match m a with
    | none => ""
    | some u =>
      let p := u.player.getD default_player
      padLeft (if cur_user_addr = u.socket_addr then "YOU" else "") 3 ++ " " ++
        padLeft u.user_name 25 ++ " " ++ padLeft (role_debug p.role) 10 ++ ", " ++
        padLeft (team_debug p.team) 10 ++ "\r\n"))
  padLeft "User Name" 29 ++ " " ++ padLeft "Role" 9 ++ " " ++ padLeft "Team" 9 ++
    "\r\n" ++ hyphens 49 ++ "\r\n" ++ list_str ++ hyphens 49 ++ "\r\n"

/-- `codenames_turn_prompt`: the per-role turn instructions, score line and
rendered board. The string literals reproduce the source's backslash line
continuations, which strip the following indentation. -/
def codenames_turn_prompt (team : CodenamesTeam) (player : CodenamesPlayer)
    (room : CodenamesRoom) : String :=
  let out := team_display team ++ " Team's Turn:\r\n"
  let out := out ++
    (if player.role = .Spymaster ∧ player.team = team then
      "Type in your clue in the format 'clue,number' where a clue is a single wordand the number is the number of guesses your team has. Keep in mind you can't usethe word you would like them to choose in the guess\r\n"
    else if player.role = .Teammate ∧ player.team = team then
      "Use chat to talk to everyone but " ++
        "the spymaster on the " ++ team_display team ++ " team. " ++
        "Guess by submitting your guess word with a '!' in front. End your turn with '!!' after making at least one guess.\r\n"
    else
      "Continue to talk to everyone, it's not your turn\r\n")
  out ++ "Score: " ++ toString room.red_score ++ "-" ++ toString room.blue_score ++
    " (R-B)\r\n" ++ room.get_board player.team player.role

/-- The state-specific portion of the prompt (the `match room.state` of
`codenames_prompt`); `GameEnd` pushes two separate lines. -/
def state_prompt_items (room : CodenamesRoom) (player : CodenamesPlayer)
    (m : UserMap) (user_addr : Nat) : List String :=
  match room.state with
  | .WaitingToStart =>
    ["Available Options:\r\n" ++
      "teammate/spymaster: Put yourself in one of these roles\r\n" ++
      "red/blue: Put yourself into one of these teams\r\n" ++
      "show: Show the current state of the room if there are any changes\r\n" ++
      "start: Start the game if the correct roles are filled\r\n" ++
      "Otherwise, any other input will be a chat message to the room\r\n" ++
      get_player_roles room m user_addr]
  | .BlueTurn => [codenames_turn_prompt .Blue player room]
  | .RedTurn => [codenames_turn_prompt .Red player room]
  | .GameEnd =>
    ["The game has ended, thanks for playing!\r\n"] ++
      (match room.assassin_found_by with
       | some found_by => ["The " ++ team_display found_by ++ " team found the assassin, so they lost!"]
       | none => ["The final score was " ++ toString room.red_score ++ "-" ++
           toString room.blue_score ++ " (R-B)\r\n"])

/-- Join the collected prompt entries; an empty collection yields no output. -/
def render_prompt (items : List String) : Option String :=
  if items.isEmpty then none
  else some (String.join (items.map (fun x => x ++ "\r\n")))

/-- `codenames_prompt`: drain the session's chat queue, lazily initialize the
room, and append the state view when the dedup marker differs from the room's
state. Returns the optional text plus the updated session map and registry;
`none` models the `unwrap` panic on a missing overlay after initialization. -/
def codenames_prompt (addr : Nat) (m : UserMap) (rooms : RoomsMap)
    (fresh_board : Board) : Option (Option String × UserMap × RoomsMap) :=
  let (user, m) := get_user_state m addr
  let drained :=
    match user.player with
    | some p => (p.chat_queue, { user with player := some { p with chat_queue := [] } })
    | none => ([], user)
  let msgs := drained.1
  let user := drained.2
  let m := mupdate m addr user
  let ini := init_user_board user rooms fresh_board
  let user := ini.1
  let rooms := ini.2.1
  let m := mupdate m addr user
  match ini.2.2 with
  | none => some (render_prompt msgs, m, rooms)
  | some (_, room) =>
    match user.player with
    | none => none
    | some player =>
      if player.state_prompted = some room.state then
        let m := mupdate m addr
          { user with player := some { player with state_prompted := some room.state } }
        some (render_prompt msgs, m, rooms)
      else
        let m := mupdate m addr
          { user with player := some { player with state_prompted := some room.state } }
        some (render_prompt (msgs ++ state_prompt_items room player m addr), m, rooms)

/-! ### Input processing (`codenames_logic`) and disconnect -/

/-- `codenames_logic`: process one line of input for the session at `addr`.
`fresh_board` stands for the board `gen_board()` would return if the room is
created by this call. `none` models a panic inside `verify_room` or
`turn_logic`. -/
def codenames_logic (addr : Nat) (m : UserMap) (rooms : RoomsMap)
    (line : Option String) (fresh_board : Board) : Option (UserMap × RoomsMap) :=
  let (user0, m) := get_user_state m addr
  let user_name := user0.user_name
  let ini := init_user_board user0 rooms fresh_board
  let user := ini.1
  let rooms := ini.2.1
  let m := mupdate m addr user
  match ini.2.2 with
  | none => some (m, rooms)
  | some (k, room) =>
    match user.player with
    | none => none
    | some player =>
      match room.state with
      | .WaitingToStart =>
        match line with
        | none => some (m, rooms)
        | some line =>
          if rs_trim line = "start" then
            match verify_room room m with
            | none => none
            | some true =>
              let m := broadcast_chat_everyone
                (user_name ++ " Started the Game!\r\n") room m
              some (m, set_room rooms k { room with state := .RedTurn })
            | some false =>
              let m := broadcast_chat_everyone
                "Cannot start the game yet, need at least a spymaster and a teammate on each team\r\n"
                room m
              some (m, rooms)
          else if rs_trim line = "teammate" then
            let p2 : CodenamesPlayer := { player with role := .Teammate, state_prompted := none }
            some (mupdate m addr { user with player := some p2 }, rooms)
          else if rs_trim line = "spymaster" then
            let p2 : CodenamesPlayer := { player with role := .Spymaster, state_prompted := none }
            some (mupdate m addr { user with player := some p2 }, rooms)
          else if rs_trim line = "red" then
            let p2 : CodenamesPlayer := { player with team := .Red, state_prompted := none }
            some (mupdate m addr { user with player := some p2 }, rooms)
          else if rs_trim line = "blue" then
            let p2 : CodenamesPlayer := { player with team := .Blue, state_prompted := none }
            some (mupdate m addr { user with player := some p2 }, rooms)
          else if rs_trim line = "show" then
            let p2 : CodenamesPlayer := { player with state_prompted := none }
            some (mupdate m addr { user with player := some p2 }, rooms)
          else
            some (broadcast_chat addr user_name line room m, rooms)
      | .BlueTurn =>
        match turn_logic .Blue line m room addr user_name with
        | none => none
        | some (m, room) => some (m, set_room rooms k room)
      | .RedTurn =>
        match turn_logic .Red line m room addr user_name with
        | none => none
        | some (m, room) => some (m, set_room rooms k room)
      | .GameEnd =>
        match user.game_room_key with
        | some room_key => some (m, mremove rooms room_key)
        | none => some (m, rooms)

/-- One registry slot of `codenames_disconnect`: if the departing address is
in the room, announce the departure (the `unwrap` on the session map is the
`none` outcome) and remove it from the player set. -/
def disconnect_room (addr : Nat) (gr : GameRoom) (m : UserMap) :
    Option (GameRoom × UserMap) :=
  match gr.impl_room with
  | none => some (gr, m)
  | some room =>
    if room.players.contains addr then
      match m addr with
      | none => none
      | some u =>
        let m := broadcast_chat_everyone (u.user_name ++ " has left the game!") room m
        let room2 : CodenamesRoom := { room with players := room.players.filter (· ≠ addr) }
        some ({ gr with impl_room := some room2 }, m)
    else some (gr, m)

/-- `codenames_disconnect`: scan every registry slot, removing the departing
address and notifying each affected room. -/
def codenames_disconnect (addr : Nat) (rooms : RoomsMap) (m : UserMap) :
    Option (RoomsMap × UserMap) :=
  match rooms with
  | [] => some ([], m)
  | (k, gr) :: rest =>
    match disconnect_room addr gr m with
    | none => none
    | some (gr', m') =>
      match codenames_disconnect addr rest m' with
      | none => none
      | some (rest', m'') => some ((k, gr') :: rest', m'')

/-! ### Top-level server driver (`game.rs`) -/

/-- The shared server context (`GameServerState`). -/
structure GameServerState where
  user_state : UserMap
  game_rooms : RoomsMap

/-- Insert one room entry into a key-sorted list (models `sort_by` on keys). -/
def insert_sorted (p : Int × GameRoom) : RoomsMap → RoomsMap
  | [] => [p]
  | q :: t => if p.1 ≤ q.1 then p :: q :: t else q :: insert_sorted p t

/-- Sort the registry entries by key ascending, as `get_lobby_listing` does. -/
def sort_rooms : RoomsMap → RoomsMap
  | [] => []
  | p :: t => insert_sorted p (sort_rooms t)

/-- `get_lobby_listing`: the numbered room menu. -/
def get_lobby_listing (rooms : RoomsMap) : String :=
  "0: New Lobby\r\n" ++
    String.join ((sort_rooms rooms).map (fun p =>
      toString p.1 ++ ": " ++ padLeft p.2.name 15 ++ "\r\n"))

/-- `find_empty_slot`: one past the largest key in use (starting from 0). -/
def find_empty_slot (rooms : RoomsMap) : Int :=
  (rooms.foldl (fun acc p => max acc p.1) 0) + 1

/-- `lobby_selection_logic`: parse the requested room index, creating a fresh
slot for index 0, and move the session into the room (or flag invalid input).
Rust's `i32` parse is `rs_parse_i32` on the trimmed line. -/
def lobby_selection_logic (user : User) (rooms : RoomsMap) (line : Option String) :
    User × RoomsMap :=
  match line with
  | none => (user, rooms)
  | some l =>
    match rs_parse_i32 (rs_trim l) with
    | some idx =>
      let created :=
        if idx = 0 then
          let k := find_empty_slot rooms
          (k, minsert rooms k { name := user.user_name ++ "'s Room", impl_room := none })
        else (idx, rooms)
      let room_idx := created.1
      let rooms := created.2
      match mlookup rooms room_idx with
      | none => ({ user with state := .InvalidInput }, rooms)
      | some _ =>
        ({ user with game_room_key := some room_idx, state := .InRoom }, rooms)
    | none => ({ user with state := .InvalidInput }, rooms)

/-- `GameServerState::client_logic`: dispatch one drive cycle for the session
at `addr` on its current mode, then record the previous mode. `fresh_board`
stands for the board `gen_board()` would produce if this call creates a room;
`none` models a panic inside the codenames core. -/
def client_logic (addr : Nat) (s : GameServerState) (line : Option String)
    (fresh_board : Board) : Option GameServerState :=
  let (user, m) := get_user_state s.user_state addr
  let starting_state := user.state
  let stepped : Option (UserMap × RoomsMap) :=
    match user.state with
    | .Joined => some (mupdate m addr { user with state := .UsernameEntry }, s.game_rooms)
    | .UsernameEntry =>
      match line with
      | none => some (m, s.game_rooms)
      | some l =>
        if rs_utf8_len l ≤ 25 then
          some (mupdate m addr
            { user with user_name := rs_trim l, state := .LobbySelection }, s.game_rooms)
        else
          some (mupdate m addr { user with state := .InvalidInput }, s.game_rooms)
    | .LobbySelection =>
      let res := lobby_selection_logic user s.game_rooms line
      some (mupdate m addr res.1, res.2)
    | .InvalidInput =>
      some (mupdate m addr { user with state := user.prev_state }, s.game_rooms)
    | .FatalError => some (m, s.game_rooms)
    | .InRoom => codenames_logic addr m s.game_rooms line fresh_board
  match stepped with
  | none => none
  | some (m, rooms) =>
    let (user2, m) := get_user_state m addr
    if user2.state ≠ starting_state then
      some { user_state := mupdate m addr { user2 with prev_state := starting_state },
             game_rooms := rooms }
    else
      some { user_state := m, game_rooms := rooms }

/-- `GameServerState::get_client_prompt`: the query entry point; only the
`InRoom` mode reaches the codenames core. -/
def get_client_prompt (addr : Nat) (s : GameServerState) (fresh_board : Board) :
    Option (Option String × GameServerState) :=
  let (user, m) := get_user_state s.user_state addr
  match user.state with
  | .Joined => some (some "Connected to Telnet Codenames\r\n",
      { user_state := m, game_rooms := s.game_rooms })
  | .UsernameEntry => some (some "Enter in your username, maximum of 25 characters\r\n",
      { user_state := m, game_rooms := s.game_rooms })
  | .LobbySelection => some (some ("Which lobby do you want to join? Or create a new lobby\r\n" ++
      get_lobby_listing s.game_rooms),
      { user_state := m, game_rooms := s.game_rooms })
  | .InvalidInput => some (some "Invalid input, please try again\r\n",
      { user_state := m, game_rooms := s.game_rooms })
  | .FatalError => some (some "A fatal error has occurred, disconnecting...\r\n",
      { user_state := m, game_rooms := s.game_rooms })
  | .InRoom =>
    match codenames_prompt addr m s.game_rooms fresh_board with
    | none => none
    | some (out, m, rooms) => some (out, { user_state := m, game_rooms := rooms })

/-- `GameServerState::client_disconnect`: run the room-scan disconnect hook,
then drop the session from the map. -/
def client_disconnect (addr : Nat) (s : GameServerState) : Option GameServerState :=
  match codenames_disconnect addr s.game_rooms s.user_state with
  | none => none
  | some (rooms, m) =>
    some { user_state := fun a => if a = addr then none else m a, game_rooms := rooms }

/-- The empty server context (`GameServerState::new`). -/
def init_state : GameServerState := { user_state := fun _ => none, game_rooms := [] }

/-- One observable transition of the single-threaded server loop: an
`apply_input` drive (`client_logic`, with any line and any randomness), a
`produce_prompt` drive, the `prev_prompt` bookkeeping write of the I/O loop,
or a disconnect. The `prev_prompt` bookkeeping write of `handle_client`
(`game.rs` callers) is `set_prev_prompt`. -/
def set_prev_prompt (addr : Nat) (p : String) (s : GameServerState) : GameServerState :=
  let (user, m) := get_user_state s.user_state addr
  { s with user_state := mupdate m addr { user with prev_prompt := p } }

/-- One observable transition of the single-threaded server loop (see the
doc comment of `set_prev_prompt` for the bookkeeping write). -/
inductive ServerStep : GameServerState → GameServerState → Prop where
  | logic (addr : Nat) (line : Option String) (fb : Board) (s s' : GameServerState) :
      client_logic addr s line fb = some s' → ServerStep s s'
  | prompt (addr : Nat) (fb : Board) (s s' : GameServerState) (out : Option String) :
      get_client_prompt addr s fb = some (out, s') → ServerStep s s'
  | bookkeeping (addr : Nat) (p : String) (s : GameServerState) :
      ServerStep s (set_prev_prompt addr p s)
  | disconnect (addr : Nat) (s s' : GameServerState) :
      client_disconnect addr s = some s' → ServerStep s s'

/-- Server states reachable from process start. -/
inductive ReachableState : GameServerState → Prop where
  | init : ReachableState init_state
  | step {s s' : GameServerState} : ReachableState s → ServerStep s s' → ReachableState s'

/-- The session at address `a` exists and carries a player overlay. -/
def PlayerSome (m : UserMap) (a : Nat) : Prop :=
  ∃ u, m a = some u ∧ u.player.isSome = true

/-- Every member of the room resolves to a session with an overlay. -/
def RoomOk (m : UserMap) (room : CodenamesRoom) : Prop :=
  ∀ a ∈ room.players, PlayerSome m a

/-- Sessions are keyed by their own socket address. -/
def AddrOk (m : UserMap) : Prop :=
  ∀ a u, m a = some u → u.socket_addr = a

/-- Every registry entry's live room has all its members resolvable with
overlays present. -/
def RoomsOkE (m : UserMap) (rooms : RoomsMap) : Prop :=
  ∀ p ∈ rooms, ∀ room, p.2.impl_room = some room → RoomOk m room

/-- The global safety invariant: session keys match socket addresses, and
every socket address held in any live room's player set is a key of the
session map, with an overlay present. -/
def Inv (s : GameServerState) : Prop :=
  AddrOk s.user_state ∧ RoomsOkE s.user_state s.game_rooms

/-- One session-map transformation step preserves what the invariant needs:
player-carrying sessions stay player-carrying, and any session present
afterwards either descends from one present before (same socket address) or
is keyed by its own socket address. -/
def PointOk (m m' : UserMap) : Prop :=
  ∀ a, (PlayerSome m a → PlayerSome m' a) ∧
    (∀ u', m' a = some u' →
      (∃ u, m a = some u ∧ u'.socket_addr = u.socket_addr) ∨ u'.socket_addr = a)

/-! ### Concrete fixtures used by closed witnesses and counterexamples -/

/-- A concrete duplicate-free 25-word pool. -/
def words25 : List String :=
  ["a", "b", "c", "d", "e", "f", "g", "h", "i", "j", "k", "l", "m",
   "n", "o", "p", "q", "r", "s", "t", "u", "v", "w", "x", "y"]

/-- The board `gen_board` produces from `words25` with all-zero choices. -/
def board25 : Board := (gen_board words25 [] []).iget

/-- A red-teammate overlay whose dedup marker is set. -/
def red_teammate_player : CodenamesPlayer :=
  { team := .Red, role := .Teammate, chat_queue := [], state_prompted := some .RedTurn }

/-- A session for that overlay at address 0. -/
def alice_user : User :=
  { prev_prompt := "", state := .InRoom, prev_state := .Joined,
    user_name := "alice", socket_addr := 0, game_room_key := some 1,
    player := some red_teammate_player }

/-- A one-entry session map holding `alice_user` at address 0. -/
def m_alice : UserMap := fun a => if a = 0 then some alice_user else none

/-- A one-card assassin board. -/
def assassin_board : Board :=
  [[{ word := "kill", card_type := .Assassin, flipped := false }]]

/-- A mid-game red-turn room over the assassin board. -/
def assassin_room : CodenamesRoom :=
  { state := .RedTurn, players := [0], red_score := 3, blue_score := 7,
    guesses := 2, assassin_found_by := none,
    clue := some { cards_to_match := 1, clue := "x" },
    board := assassin_board }

/-- A one-card blue-agent board. -/
def blue_board : Board :=
  [[{ word := "w", card_type := .BlueAgent, flipped := false }]]

/-- `red9_room` with the red score reset to zero. -/
def zero_room : CodenamesRoom :=
  { state := .RedTurn, players := [0], red_score := 0, blue_score := 0,
    guesses := 0, assassin_found_by := none, clue := none, board := blue_board }

/-- `zero_room` over a one-card RedAgent board. -/
def red_agent_room : CodenamesRoom :=
  { zero_room with board := [[{ word := "r", card_type := .RedAgent, flipped := false }]] }

/-- A fresh red-turn room over a one-card Bystander board. -/
def bystander_room : CodenamesRoom :=
  { state := .RedTurn, players := [0], red_score := 0, blue_score := 0,
    guesses := 0, assassin_found_by := none, clue := none,
    board := [[{ word := "b", card_type := .Bystander, flipped := false }]] }

/-- A red-turn room over `blue_board` in which red has already found all nine
agents (reachable: red's ninth own-agent guess within the clue limit does not
switch the turn). -/
def red9_room : CodenamesRoom :=
  { state := .RedTurn, players := [0], red_score := 9, blue_score := 0,
    guesses := 0, assassin_found_by := none, clue := none, board := blue_board }

/-- Overlay constructor for the four-seat fixtures. -/
def mk_player (t : CodenamesTeam) (r : CodenamesRole) : CodenamesPlayer :=
  { team := t, role := r, chat_queue := [], state_prompted := none }

/-- Session constructor for the four-seat fixtures. -/
def mk_user (a : Nat) (t : CodenamesTeam) (r : CodenamesRole) : User :=
  { prev_prompt := "", state := .InRoom, prev_state := .Joined,
    user_name := "alice" ++ toString a, socket_addr := a,
    game_room_key := some 1, player := some (mk_player t r) }

/-- Four sessions covering all four required (team, role) pairs. -/
def m_four : UserMap := fun a =>
  if a = 0 then some (mk_user 0 .Red .Spymaster)
  else if a = 1 then some (mk_user 1 .Red .Teammate)
  else if a = 2 then some (mk_user 2 .Blue .Spymaster)
  else if a = 3 then some (mk_user 3 .Blue .Teammate)
  else none

/-- A waiting room holding the four sessions. -/
def waiting_room : CodenamesRoom :=
  { state := .WaitingToStart, players := [0, 1, 2, 3], red_score := 0,
    blue_score := 0, guesses := 0, assassin_found_by := none, clue := none,
    board := blue_board }

/-- The registry slot for `waiting_room`. -/
def gr_one : GameRoom := { name := "r", impl_room := some waiting_room }

/-- A registry holding only `gr_one` at key 1. -/
def rooms_one : RoomsMap := [(1, gr_one)]

/-- A registry slot whose game has not been created yet. -/
def gr_empty : GameRoom := { name := "r", impl_room := none }

/-- A registry holding only the uninitialized `gr_empty` at key 1. -/
def rooms_empty : RoomsMap := [(1, gr_empty)]

/-- The session overlay after a steady-state prompt: queue drained, dedup
marker set to the room's state. -/
def prompt_frame_user (user : User) (p0 : CodenamesPlayer) (st : CodenamesState) : User :=
  { user with player := some { p0 with chat_queue := [], state_prompted := some st } }

/-! ## Theorems -/

theorem render_card_teammate_agree {c1 c2 : CodenamesCard}
    (h : card_agree c1 c2 = true) :
    render_card .Teammate c1 = render_card .Teammate c2 := by
  simp only [card_agree, Bool.and_eq_true, Bool.or_eq_true, Bool.not_eq_true',
    beq_iff_eq] at h
  obtain ⟨⟨hw, hf⟩, hk⟩ := h
  cases hfl : c1.flipped with
  | false =>
    rw [hfl] at hf
    simp [render_card, flip_marker, hfl, ← hf, hw]
  | true =>
    rw [hfl] at hf
    rcases hk with h | hk
    · rw [h] at hfl; exact absurd hfl (by decide)
    · simp [render_card, flip_marker, hfl, ← hf, hw, hk]

theorem render_row_teammate_agree :
    ∀ {r1 r2 : List CodenamesCard}, row_agree r1 r2 = true →
      r1.map (render_card .Teammate) = r2.map (render_card .Teammate) := by
  intro r1
  induction r1 with
  | nil =>
    intro r2 h
    cases r2 with
    | nil => rfl
    | cons c2 t2 => simp [row_agree] at h
  | cons c1 t1 ih =>
    intro r2 h
    cases r2 with
    | nil => simp [row_agree] at h
    | cons c2 t2 =>
      simp only [row_agree, Bool.and_eq_true] at h
      simp [render_card_teammate_agree h.1, ih h.2]

theorem render_rows_teammate_agree :
    ∀ {b1 b2 : Board}, board_agree b1 b2 = true →
      b1.map (fun row => String.join (row.map (render_card .Teammate)) ++ "|\r\n" ++
          hyphens 81 ++ "\r\n") =
      b2.map (fun row => String.join (row.map (render_card .Teammate)) ++ "|\r\n" ++
          hyphens 81 ++ "\r\n") := by
  intro b1
  induction b1 with
  | nil =>
    intro b2 h
    cases b2 with
    | nil => rfl
    | cons r2 t2 => simp [board_agree] at h
  | cons r1 t1 ih =>
    intro b2 h
    cases b2 with
    | nil => simp [board_agree] at h
    | cons r2 t2 =>
      simp only [board_agree, Bool.and_eq_true] at h
      simp only [List.map_cons, render_row_teammate_agree h.1, ih h.2]

theorem render_card_not_teammate {role : CodenamesRole} (h : role ≠ .Teammate)
    (c : CodenamesCard) : render_card role c = render_card_full c := by
  have hc : ¬(CodenamesRole.Teammate = role ∧ c.flipped = false) := by
    intro hc; exact h hc.1.symm
  simp [render_card, render_card_full, hc]

/-- C1: the board text shown to a Teammate carries no kind information about
unflipped cards — two boards that differ at most in the kinds of their
unflipped cards render identically for a Teammate viewer (for any viewer
team) — while a Spymaster or Spectator viewer always gets the fully revealed
cell (word, kind marker and flipped marker) for every card. -/
theorem C1_teammate_fog_of_war :
    (∀ room1 room2 : CodenamesRoom, ∀ team1 team2 : CodenamesTeam,
        board_agree room1.board room2.board = true →
        room1.get_board team1 .Teammate = room2.get_board team2 .Teammate) ∧
    (∀ (room : CodenamesRoom) (team : CodenamesTeam) (role : CodenamesRole),
        role = .Spymaster ∨ role = .Spectator →
        room.get_board team role = full_board_view room.board) := by
  constructor
  · intro room1 room2 team1 team2 h
    unfold CodenamesRoom.get_board
    rw [render_rows_teammate_agree h]
  · intro room team role hrole
    have hne : role ≠ .Teammate := by rcases hrole with h | h <;> simp [h]
    unfold CodenamesRoom.get_board full_board_view
    have hrows : room.board.map (fun row =>
        String.join (row.map (render_card role)) ++ "|\r\n" ++ hyphens 81 ++ "\r\n") =
        room.board.map (fun row =>
        String.join (row.map render_card_full) ++ "|\r\n" ++ hyphens 81 ++ "\r\n") := by
      apply List.map_congr_left
      intro row _
      rw [List.map_congr_left (fun c _ => render_card_not_teammate hne c)]
    rw [hrows]

/-- Closed witness for C1: two concrete one-card boards whose unflipped card
has a different kind render identically to a Teammate, and the Spymaster view
of the first one is the fully revealed board. -/
theorem C1_witness :
    (board_agree
        [[{ word := "w", card_type := .RedAgent, flipped := false }]]
        [[{ word := "w", card_type := .BlueAgent, flipped := false }]] = true) ∧
    (CodenamesRoom.get_board
        { state := .RedTurn, players := [], red_score := 0, blue_score := 0,
          guesses := 0, assassin_found_by := none, clue := none,
          board := [[{ word := "w", card_type := .RedAgent, flipped := false }]] }
        .Red .Teammate =
      CodenamesRoom.get_board
        { state := .RedTurn, players := [], red_score := 0, blue_score := 0,
          guesses := 0, assassin_found_by := none, clue := none,
          board := [[{ word := "w", card_type := .BlueAgent, flipped := false }]] }
        .Red .Teammate) ∧
    (CodenamesRoom.get_board
        { state := .RedTurn, players := [], red_score := 0, blue_score := 0,
          guesses := 0, assassin_found_by := none, clue := none,
          board := [[{ word := "w", card_type := .RedAgent, flipped := false }]] }
        .Red .Spymaster =
      full_board_view [[{ word := "w", card_type := .RedAgent, flipped := false }]]) :=
  ⟨by decide,
   C1_teammate_fog_of_war.1 _ _ .Red .Red (by decide),
   C1_teammate_fog_of_war.2 _ .Red .Spymaster (Or.inl rfl)⟩

theorem draw_perm {α : Type} [DecidableEq α] {xs xs' : List α} {x : α} {c : Nat}
    (h : draw xs c = some (x, xs')) : xs.Perm (x :: xs') := by
  unfold draw at h
  split at h
  · next hl =>
    simp only [Option.some.injEq, Prod.mk.injEq] at h
    obtain ⟨hx, hxs⟩ := h
    subst hxs
    rw [← hx]
    exact (List.perm_cons_erase (List.getElem_mem _)).trans
      (List.Perm.cons _ (List.erase_getElem _))
  · exact absurd h (by simp)

theorem draw_length {α : Type} {xs xs' : List α} {x : α} {c : Nat}
    (h : draw xs c = some (x, xs')) : xs'.length + 1 = xs.length := by
  unfold draw at h
  split at h
  · next hl =>
    simp only [Option.some.injEq, Prod.mk.injEq] at h
    rw [← h.2]
    exact List.length_eraseIdx_add_one (Nat.mod_lt _ hl)
  · exact absurd h (by simp)

theorem gen_cards_length : ∀ {n : Nat} {ws : List String}
    {ts : List CodenamesCardType} {wcs tcs : List Nat} {res : List CodenamesCard},
    gen_cards n ws ts wcs tcs = some res → res.length = n := by
  intro n
  induction n with
  | zero =>
    intro ws ts wcs tcs res h
    simp only [gen_cards, Option.some.injEq] at h
    simp [← h]
  | succ n ih =>
    intro ws ts wcs tcs res h
    simp only [gen_cards] at h
    split at h
    · exact absurd h (by simp)
    · next w ws2 hw =>
      split at h
      · exact absurd h (by simp)
      · next t ts2 ht =>
        split at h
        · exact absurd h (by simp)
        · next rest hr =>
          simp only [Option.some.injEq] at h
          rw [← h]
          simp [ih hr]

theorem gen_cards_types_perm : ∀ {n : Nat} {ws : List String}
    {ts : List CodenamesCardType} {wcs tcs : List Nat} {res : List CodenamesCard},
    ts.length = n → gen_cards n ws ts wcs tcs = some res →
    (res.map CodenamesCard.card_type).Perm ts := by
  intro n
  induction n with
  | zero =>
    intro ws ts wcs tcs res hl h
    simp only [gen_cards, Option.some.injEq] at h
    rw [← h]
    cases ts with
    | nil => exact List.Perm.refl _
    | cons t ts => cases hl
  | succ n ih =>
    intro ws ts wcs tcs res hl h
    simp only [gen_cards] at h
    split at h
    · exact absurd h (by simp)
    · next w ws2 hw =>
      split at h
      · exact absurd h (by simp)
      · next t ts2 ht =>
        split at h
        · exact absurd h (by simp)
        · next rest hr =>
          simp only [Option.some.injEq] at h
          rw [← h]
          have hperm := draw_perm ht
          have hlen : ts2.length = n := by
            have := draw_length ht
            omega
          have htail := ih hlen hr
          simp only [List.map_cons]
          exact (List.Perm.cons t htail).trans hperm.symm

theorem gen_cards_words_nodup : ∀ {n : Nat} {ws : List String}
    {ts : List CodenamesCardType} {wcs tcs : List Nat} {res : List CodenamesCard},
    ws.Nodup → gen_cards n ws ts wcs tcs = some res →
    (res.map CodenamesCard.word).Nodup ∧
      ∀ w ∈ res.map CodenamesCard.word, w ∈ ws := by
  intro n
  induction n with
  | zero =>
    intro ws ts wcs tcs res hnd h
    simp only [gen_cards, Option.some.injEq] at h
    rw [← h]
    simp
  | succ n ih =>
    intro ws ts wcs tcs res hnd h
    simp only [gen_cards] at h
    split at h
    · exact absurd h (by simp)
    · next w ws2 hw =>
      split at h
      · exact absurd h (by simp)
      · next t ts2 ht =>
        split at h
        · exact absurd h (by simp)
        · next rest hr =>
          simp only [Option.some.injEq] at h
          rw [← h]
          have hperm := draw_perm hw
          have hnd2 : (w :: ws2).Nodup := hperm.nodup hnd
          obtain ⟨hrest_nd, hrest_sub⟩ := ih (List.Nodup.of_cons hnd2) hr
          constructor
          · simp only [List.map_cons, List.nodup_cons]
            refine ⟨fun hmem => ?_, hrest_nd⟩
            have hw_notin : w ∉ ws2 := (List.nodup_cons.mp hnd2).1
            exact hw_notin (hrest_sub w hmem)
          · intro x hx
            simp only [List.map_cons, List.mem_cons] at hx
            rcases hx with hx | hx
            · rw [hx]
              exact hperm.mem_iff.mpr (List.mem_cons_self _ _)
            · exact hperm.mem_iff.mpr (List.mem_cons_of_mem _ (hrest_sub x hx))

theorem gen_cards_unflipped : ∀ {n : Nat} {ws : List String}
    {ts : List CodenamesCardType} {wcs tcs : List Nat} {res : List CodenamesCard},
    gen_cards n ws ts wcs tcs = some res → ∀ c ∈ res, c.flipped = false := by
  intro n
  induction n with
  | zero =>
    intro ws ts wcs tcs res h
    simp only [gen_cards, Option.some.injEq] at h
    rw [← h]
    simp
  | succ n ih =>
    intro ws ts wcs tcs res h
    simp only [gen_cards] at h
    split at h
    · exact absurd h (by simp)
    · next w ws2 hw =>
      split at h
      · exact absurd h (by simp)
      · next t ts2 ht =>
        split at h
        · exact absurd h (by simp)
        · next rest hr =>
          simp only [Option.some.injEq] at h
          rw [← h]
          intro c hc
          rcases List.mem_cons.mp hc with hc | hc
          · rw [hc]
          · exact ih hr c hc


theorem board_cards_to_board (l : List CodenamesCard) : board_cards (to_board l) = l := by
  simp only [to_board, board_cards, List.foldr_cons, List.foldr_nil, List.append_nil]
  have h15 : (l.drop 15).take 5 ++ l.drop 20 = l.drop 15 :=
    List.drop_take_append_drop l 15 5
  have h10 : (l.drop 10).take 5 ++ l.drop 15 = l.drop 10 :=
    List.drop_take_append_drop l 10 5
  have h5 : (l.drop 5).take 5 ++ l.drop 10 = l.drop 5 :=
    List.drop_take_append_drop l 5 5
  rw [h15, h10, h5, List.take_append_drop]

/-- C6: for every word pool without duplicates and every sequence of random
choices, a successfully generated board consists of exactly 25 cards — 9
RedAgent, 8 BlueAgent, 7 Bystander, 1 Assassin — all initially unflipped,
with 25 pairwise distinct words drawn from the pool, arranged as 5 rows of 5. -/
theorem C6_gen_board_composition {words : List String} {wcs tcs : List Nat}
    {b : Board} (hnd : words.Nodup) (h : gen_board words wcs tcs = some b) :
    (board_cards b).length = 25 ∧
    ((board_cards b).map CodenamesCard.card_type).count .RedAgent = 9 ∧
    ((board_cards b).map CodenamesCard.card_type).count .BlueAgent = 8 ∧
    ((board_cards b).map CodenamesCard.card_type).count .Bystander = 7 ∧
    ((board_cards b).map CodenamesCard.card_type).count .Assassin = 1 ∧
    (∀ c ∈ board_cards b, c.flipped = false) ∧
    ((board_cards b).map CodenamesCard.word).Nodup ∧
    b.length = 5 ∧ (∀ row ∈ b, row.length = 5) := by
  unfold gen_board at h
  rw [if_pos (by decide)] at h
  cases hg : gen_cards 25 words card_types_pool wcs tcs with
  | none => rw [hg] at h; cases h
  | some res =>
    rw [hg] at h
    simp only [Option.map_some', Option.some.injEq] at h
    have hb : board_cards b = res := by rw [← h]; exact board_cards_to_board res
    have hlen : res.length = 25 := gen_cards_length hg
    have hperm : (res.map CodenamesCard.card_type).Perm card_types_pool :=
      gen_cards_types_perm (by decide) hg
    have hwords := gen_cards_words_nodup hnd hg
    refine ⟨by rw [hb]; exact hlen, ?_, ?_, ?_, ?_, ?_, ?_, ?_, ?_⟩
    · rw [hb, hperm.count_eq]; decide
    · rw [hb, hperm.count_eq]; decide
    · rw [hb, hperm.count_eq]; decide
    · rw [hb, hperm.count_eq]; decide
    · rw [hb]; exact gen_cards_unflipped hg
    · rw [hb]; exact hwords.1
    · rw [← h]; rfl
    · rw [← h]
      intro row hrow
      simp only [to_board, List.mem_cons, List.not_mem_nil, or_false] at hrow
      rcases hrow with h1 | h1 | h1 | h1 | h1 <;> rw [h1] <;>
        simp [List.length_take, List.length_drop, hlen]

/-- Closed witness for C6: the concrete pool `words25` is duplicate-free,
`gen_board` succeeds on it, and the resulting board has the 9/8/7/1
composition with all words distinct. -/
theorem C6_witness :
    words25.Nodup ∧ gen_board words25 [] [] = some board25 ∧
    (board_cards board25).length = 25 ∧
    ((board_cards board25).map CodenamesCard.card_type).count .RedAgent = 9 ∧
    ((board_cards board25).map CodenamesCard.card_type).count .Assassin = 1 ∧
    ((board_cards board25).map CodenamesCard.word).Nodup := by
  have hnd : words25.Nodup := by decide
  have hgen : gen_board words25 [] [] = some board25 := by decide
  have h := C6_gen_board_composition hnd hgen
  exact ⟨hnd, hgen, h.1, h.2.1, h.2.2.2.2.1, h.2.2.2.2.2.2.1⟩

/-! ### Shared helper lemmas about the notification and map primitives -/

theorem broadcast_everyone_apply (msg : String) (room : CodenamesRoom)
    (m : UserMap) (a : Nat) :
    broadcast_chat_everyone msg room m a =
      match m a with
      | none => none
      | some u =>
        if room.players.contains u.socket_addr then
          match u.player with
          | some p => some { u with player := some (push_msg (rs_trim msg) p) }
          | none => some u
        else some u := rfl

theorem broadcast_chat_apply (user_addr : Nat) (user_name msg : String)
    (room : CodenamesRoom) (m : UserMap) (a : Nat) :
    broadcast_chat user_addr user_name msg room m a =
      match m a with
      | none => none
      | some u =>
        if room.players.contains u.socket_addr ∧ u.socket_addr ≠ user_addr then
          match u.player with
          | some p => some { u with player := some (push_msg (user_name ++ ": " ++ rs_trim msg) p) }
          | none => some u
        else some u := rfl

/-- Broadcasting touches only chat queues: session existence, identity,
team, role and dedup marker are untouched pointwise. -/
theorem broadcast_everyone_shape (msg : String) (room : CodenamesRoom)
    (m : UserMap) (a : Nat) :
    (broadcast_chat_everyone msg room m a = none ∧ m a = none) ∨
    (∃ u u', m a = some u ∧ broadcast_chat_everyone msg room m a = some u' ∧
      u'.socket_addr = u.socket_addr ∧ u'.state = u.state ∧
      u'.game_room_key = u.game_room_key ∧
      u'.player.isSome = u.player.isSome ∧
      (u'.player.map CodenamesPlayer.team = u.player.map CodenamesPlayer.team) ∧
      (u'.player.map CodenamesPlayer.role = u.player.map CodenamesPlayer.role) ∧
      (u'.player.map CodenamesPlayer.state_prompted =
        u.player.map CodenamesPlayer.state_prompted)) := by
  rw [broadcast_everyone_apply]
  cases hma : m a with
  | none => exact Or.inl ⟨rfl, rfl⟩
  | some u =>
    right
    by_cases hc : room.players.contains u.socket_addr
    · simp only [hc, if_true]
      cases hp : u.player with
      | none => exact ⟨u, u, rfl, rfl, rfl, rfl, rfl, rfl, rfl, rfl, rfl⟩
      | some p => exact ⟨u, _, rfl, rfl, rfl, rfl, rfl, by simp [hp], by simp [hp, push_msg],
          by simp [hp, push_msg], by simp [hp, push_msg]⟩
    · simp only [hc, if_false]
      exact ⟨u, u, rfl, rfl, rfl, rfl, rfl, rfl, rfl, rfl, rfl⟩

theorem broadcast_everyone_hok (msg : String) (room room2 : CodenamesRoom)
    (m : UserMap)
    (hok : ∀ a ∈ room2.players, ∀ u, m a = some u → u.player.isSome = true) :
    ∀ a ∈ room2.players, ∀ u, broadcast_chat_everyone msg room m a = some u →
      u.player.isSome = true := by
  intro a ha u hu
  rcases broadcast_everyone_shape msg room m a with ⟨h1, _⟩ | ⟨u0, u', h0, h1, _, _, _, hps, _⟩
  · rw [hu] at h1; cases h1
  · rw [hu] at h1
    cases h1
    rw [hps]
    exact hok a ha u0 h0

theorem refresh_guard_of (room : CodenamesRoom) (m : UserMap)
    (hok : ∀ a ∈ room.players, ∀ u, m a = some u → u.player.isSome = true) :
    (room.players.all (fun a =>
      match m a with
      | none => true
      | some u => u.player.isSome)) = true := by
  rw [List.all_eq_true]
  intro a ha
  cases hma : m a with
  | none => simp
  | some u => simpa [hma] using hok a ha u hma

theorem refresh_prompt_some (room : CodenamesRoom) (m : UserMap)
    (hok : ∀ a ∈ room.players, ∀ u, m a = some u → u.player.isSome = true) :
    refresh_prompt room m = some (fun a =>
      match m a with
      | none => none
      | some u =>
        if room.players.contains a then
          match u.player with
          | some p => some { u with player := some { p with state_prompted := none } }
          | none => some u
        else some u) := by
  unfold refresh_prompt
  rw [if_pos (refresh_guard_of room m hok)]

theorem end_turn_fields (team : CodenamesTeam) (room : CodenamesRoom) :
    (end_turn team room).guesses = 0 ∧
    (end_turn team room).state =
      (if room.red_score = 9 ∨ room.blue_score = 8 then .GameEnd
       else if team = .Blue then .RedTurn else .BlueTurn) ∧
    (end_turn team room).red_score = room.red_score ∧
    (end_turn team room).blue_score = room.blue_score ∧
    (end_turn team room).players = room.players ∧
    (end_turn team room).board = room.board ∧
    (end_turn team room).clue = room.clue ∧
    (end_turn team room).assassin_found_by = room.assassin_found_by := by
  unfold end_turn
  by_cases h : room.red_score = 9 ∨ room.blue_score = 8 <;>
    simp [h]

theorem mupdate_apply (m : UserMap) (addr : Nat) (u : User) (a : Nat) :
    mupdate m addr u a = if a = addr then some u else m a := rfl

theorem mupdate_self {m : UserMap} {addr : Nat} {u : User}
    (h : m addr = some u) : mupdate m addr u = m := by
  funext a
  rw [mupdate_apply]
  by_cases ha : a = addr
  · rw [ha, h, if_pos rfl]
  · rw [if_neg ha]

theorem mupdate_mupdate (m : UserMap) (addr : Nat) (u v : User) :
    mupdate (mupdate m addr u) addr v = mupdate m addr v := by
  funext a
  simp only [mupdate_apply]
  by_cases ha : a = addr <;> simp [ha]

theorem mlookup_replace_ne (t : RoomsMap) (k : Int) (v : GameRoom) (k' : Int)
    (hne : k' ≠ k) :
    mlookup (t.map (fun p => if p.1 = k then (k, v) else p)) k' = mlookup t k' := by
  induction t with
  | nil => rfl
  | cons p s ih =>
    obtain ⟨pk, pv⟩ := p
    simp only [List.map_cons]
    by_cases hpk : pk = k
    · subst hpk
      have hh : (if ((pk : Int), pv).1 = pk then ((pk : Int), v) else (pk, pv)) = (pk, v) := by
        simp
      rw [hh]
      simp only [mlookup]
      rw [if_neg (fun h => hne h.symm), if_neg (fun h => hne h.symm), ih]
    · have hh : (if ((pk : Int), pv).1 = k then ((k : Int), v) else (pk, pv)) = (pk, pv) := by
        simp [hpk]
      rw [hh]
      simp only [mlookup]
      by_cases hp' : pk = k'
      · rw [if_pos hp', if_pos hp']
      · rw [if_neg hp', if_neg hp', ih]

theorem mlookup_replace (l : RoomsMap) (k : Int) (v : GameRoom) (k' : Int)
    (h : (mlookup l k).isSome = true) :
    mlookup (l.map (fun p => if p.1 = k then (k, v) else p)) k' =
      if k' = k then some v else mlookup l k' := by
  induction l with
  | nil => simp [mlookup] at h
  | cons p t ih =>
    obtain ⟨pk, pv⟩ := p
    simp only [mlookup] at h
    simp only [List.map_cons]
    by_cases hpk : pk = k
    · subst hpk
      have hh : (if ((pk : Int), pv).1 = pk then ((pk : Int), v) else (pk, pv)) = (pk, v) := by
        simp
      rw [hh]
      simp only [mlookup]
      by_cases hk' : pk = k'
      · rw [if_pos hk', if_pos hk'.symm]
      · rw [if_neg hk', if_neg (fun h2 : k' = pk => hk' h2.symm),
          mlookup_replace_ne t pk v k' (fun h2 => hk' h2.symm), if_neg hk']
    · rw [if_neg hpk] at h
      have hh : (if ((pk : Int), pv).1 = k then ((k : Int), v) else (pk, pv)) = (pk, pv) := by
        simp [hpk]
      rw [hh]
      simp only [mlookup]
      by_cases hp' : pk = k'
      · rw [if_pos hp', if_pos hp', if_neg (fun h2 : k' = k => hpk (hp'.trans h2))]
      · rw [if_neg hp', if_neg hp', ih h]

theorem mlookup_append_single (l : RoomsMap) (k : Int) (v : GameRoom) (k' : Int)
    (h : mlookup l k = none) :
    mlookup (l ++ [(k, v)]) k' = if k' = k then some v else mlookup l k' := by
  induction l with
  | nil =>
    simp only [List.nil_append, mlookup]
    by_cases hk : k = k'
    · rw [if_pos hk, if_pos hk.symm]
    · rw [if_neg hk, if_neg (fun h2 : k' = k => hk h2.symm)]
  | cons p t ih =>
    obtain ⟨pk, pv⟩ := p
    simp only [mlookup] at h
    by_cases hpk : pk = k
    · rw [if_pos hpk] at h; cases h
    · rw [if_neg hpk] at h
      simp only [List.cons_append, mlookup]
      by_cases hp' : pk = k'
      · rw [if_pos hp', if_pos hp', if_neg (fun h2 : k' = k => hpk (hp'.trans h2))]
      · rw [if_neg hp', if_neg hp']
        exact ih h

theorem mlookup_minsert (l : RoomsMap) (k k' : Int) (v : GameRoom) :
    mlookup (minsert l k v) k' = if k' = k then some v else mlookup l k' := by
  unfold minsert
  by_cases h : (mlookup l k).isSome
  · rw [if_pos h]
    exact mlookup_replace l k v k' h
  · rw [if_neg h]
    exact mlookup_append_single l k v k'
      (Option.not_isSome_iff_eq_none.mp h)

theorem map_replace_id_of_no_key (t : RoomsMap) (k : Int) (v : GameRoom)
    (h : ∀ q ∈ t, q.1 ≠ k) :
    t.map (fun p => if p.1 = k then (k, v) else p) = t := by
  induction t with
  | nil => rfl
  | cons p s ih =>
    simp only [List.map_cons]
    rw [if_neg (h p (List.mem_cons_self _ _)),
      ih (fun q hq => h q (List.mem_cons_of_mem _ hq))]

theorem minsert_self {l : RoomsMap} {k : Int} {v : GameRoom}
    (hnd : (l.map Prod.fst).Nodup) (h : mlookup l k = some v) :
    minsert l k v = l := by
  unfold minsert
  rw [if_pos (by simp [h])]
  induction l with
  | nil => cases h
  | cons p t ih =>
    obtain ⟨pk, pv⟩ := p
    simp only [List.map_cons, List.nodup_cons] at hnd
    simp only [mlookup] at h
    simp only [List.map_cons]
    by_cases hpk : pk = k
    · rw [if_pos hpk] at h
      have hpv : pv = v := Option.some.inj h
      subst hpk
      have hh : (if ((pk : Int), pv).1 = pk then ((pk : Int), v) else (pk, pv)) = (pk, pv) := by
        simp [hpv]
      rw [hh]
      have hmiss : ∀ q ∈ t, q.1 ≠ pk := by
        intro q hq hqk
        exact hnd.1 (hqk ▸ List.mem_map_of_mem Prod.fst hq)
      rw [map_replace_id_of_no_key t pk v hmiss]
    · rw [if_neg hpk] at h
      have hh : (if ((pk : Int), pv).1 = k then ((k : Int), v) else (pk, pv)) = (pk, pv) := by
        simp [hpk]
      rw [hh, ih hnd.2 h]

/-- C3: in either team's turn, an active-team Teammate guess that names the
Assassin card sets `assassin_found_by` to the active team and the state to
`GameEnd`, for every score, clue and guess count; the function returns
immediately — the guess counter keeps its incremented value (no turn-switch
reset), the scores and clue are untouched, and no member's prompt-dedup
marker is cleared (the refresh step is skipped). -/
theorem C3_assassin_immediate_game_end (team : CodenamesTeam) (line w : String)
    (m : UserMap) (room : CodenamesRoom) (user_addr : Nat) (user_name : String)
    (user : User) (player : CodenamesPlayer) (card : CodenamesCard)
    (hm : m user_addr = some user) (hp : user.player = some player)
    (hteam : team = player.team) (hrole : player.role = .Teammate)
    (h2 : rs_starts_with line "!!" = false) (h1 : rs_starts_with line "!" = true)
    (hw : rs_trim (rs_drop line 1) = w)
    (hfind : find_card w room.board = some card)
    (hcard : card.card_type = .Assassin) :
    ∃ m2, turn_logic team (some line) m room user_addr user_name = some (m2,
      { room with
        guesses := room.guesses + 1,
        board := flip_board w room.board,
        assassin_found_by := some team,
        state := .GameEnd }) ∧
      (∀ a, ((m2 a).bind User.player).map CodenamesPlayer.state_prompted =
        ((m a).bind User.player).map CodenamesPlayer.state_prompted) := by
  refine ⟨broadcast_chat_everyone (user.user_name ++ " Guessed " ++ w ++ "\r\n")
      { room with guesses := room.guesses + 1 } m, ?_, ?_⟩
  · simp only [turn_logic, hm, hp, ← hteam, hrole, h2, h1, hw, hfind, hcard,
      and_self, if_true, Bool.false_eq_true, if_false, reduceIte]
  · intro a
    rcases broadcast_everyone_shape (user.user_name ++ " Guessed " ++ w ++ "\r\n")
        { room with guesses := room.guesses + 1 } m a with ⟨h1', h2'⟩ | ⟨u, u', h0, hbr, _, _, _, _, _, _, hsp⟩
    · rw [h1', h2']
    · rw [h0, hbr]
      simpa using hsp

/-- Closed witness for C3: a concrete red-teammate guess of the assassin card
ends the game with `assassin_found_by = Red` while scores stay put. -/
theorem C3_witness :
    ∃ m2, turn_logic .Red (some "!kill") m_alice assassin_room 0 "alice" =
      some (m2, { assassin_room with
        guesses := 3,
        board := flip_board "kill" assassin_board,
        assassin_found_by := some .Red,
        state := .GameEnd }) := by
  obtain ⟨m2, hm2, _⟩ := C3_assassin_immediate_game_end .Red "!kill" "kill"
    m_alice assassin_room 0 "alice" alice_user red_teammate_player
    { word := "kill", card_type := .Assassin, flipped := false }
    (by decide) rfl rfl rfl (by decide) (by decide) (by decide) (by decide) rfl
  exact ⟨m2, hm2⟩

/-- C4: every turn switch — the `!!` end-turn command (legal only with at
least one guess made) and the automatic switch after a guess (here the
Bystander resolution) — goes through the same sub-step: the active team
flips Red↔Blue, the guess counter resets to 0, and a red score of 9 or a
blue score of 8 overrides the just-computed next turn with `GameEnd`. -/
theorem C4_turn_switch_thresholds :
    (∀ (team : CodenamesTeam) (line : String) (m : UserMap) (room : CodenamesRoom)
        (addr : Nat) (uname : String) (user : User) (player : CodenamesPlayer),
      m addr = some user → user.player = some player →
      team = player.team → player.role = .Teammate →
      rs_starts_with line "!!" = true → room.guesses > 0 →
      turn_logic team (some line) m room addr uname = some (m, end_turn team room) ∧
      (end_turn team room).guesses = 0 ∧
      (end_turn team room).state = (if room.red_score = 9 ∨ room.blue_score = 8
        then .GameEnd else if team = .Blue then .RedTurn else .BlueTurn) ∧
      (end_turn team room).red_score = room.red_score ∧
      (end_turn team room).blue_score = room.blue_score) ∧
    (∀ (team : CodenamesTeam) (line w : String) (m : UserMap) (room : CodenamesRoom)
        (addr : Nat) (uname : String) (user : User) (player : CodenamesPlayer)
        (card : CodenamesCard),
      m addr = some user → user.player = some player →
      team = player.team → player.role = .Teammate →
      rs_starts_with line "!!" = false → rs_starts_with line "!" = true →
      rs_trim (rs_drop line 1) = w →
      find_card w room.board = some card → card.card_type = .Bystander →
      (∀ a ∈ room.players, ∀ u, m a = some u → u.player.isSome = true) →
      (turn_logic team (some line) m room addr uname).map
          (fun r => (r.2.guesses, r.2.state, r.2.red_score, r.2.blue_score)) =
        some (0, (if room.red_score = 9 ∨ room.blue_score = 8
          then .GameEnd else if team = .Blue then .RedTurn else .BlueTurn),
          room.red_score, room.blue_score)) := by
  constructor
  · intro team line m room addr uname user player hm hp hteam hrole hline hg
    refine ⟨?_, ?_, ?_, ?_, ?_⟩
    · simp only [turn_logic, hm, hp, ← hteam, hrole, hline, and_self, if_true,
        reduceIte, hg]
    · exact (end_turn_fields team room).1
    · exact (end_turn_fields team room).2.1
    · exact (end_turn_fields team room).2.2.1
    · exact (end_turn_fields team room).2.2.2.1
  · intro team line w m room addr uname user player card hm hp hteam hrole h2 h1
      hw hfind hcard hok
    have hok1 : ∀ a ∈ room.players, ∀ u,
        broadcast_chat_everyone (user.user_name ++ " Guessed " ++ w ++ "\r\n")
          { room with guesses := room.guesses + 1 } m a = some u →
        u.player.isSome = true :=
      broadcast_everyone_hok _ _ room _ hok
    have href := refresh_prompt_some
      { room with guesses := room.guesses + 1, board := flip_board w room.board }
      (broadcast_chat_everyone (user.user_name ++ " Guessed " ++ w ++ "\r\n")
        { room with guesses := room.guesses + 1 } m) hok1
    simp only [turn_logic, hm, hp, ← hteam, hrole, h2, h1, hw, hfind, hcard,
      and_self, if_true, Bool.false_eq_true, if_false, reduceIte, href,
      Bool.true_or, Option.map_some']
    simp only [reduceCtorEq, reduceIte, Bool.true_or, href, Option.map_some']
    rw [(end_turn_fields team _).1, (end_turn_fields team _).2.1,
      (end_turn_fields team _).2.2.1, (end_turn_fields team _).2.2.2.1]

/-- Closed witness for C4: with scores 3–7 a red `!!` (after two guesses)
switches to BlueTurn with the counter reset, and a red Bystander guess in a
fresh room likewise yields BlueTurn with zero guesses. -/
theorem C4_witness :
    (turn_logic .Red (some "!!") m_alice assassin_room 0 "alice" =
        some (m_alice, end_turn .Red assassin_room)) ∧
    (end_turn .Red assassin_room).state = .BlueTurn ∧
    (end_turn .Red assassin_room).guesses = 0 ∧
    ((turn_logic .Red (some "!b") m_alice bystander_room 0 "alice").map
        (fun r => (r.2.guesses, r.2.state, r.2.red_score, r.2.blue_score)) =
      some (0, .BlueTurn, 0, 0)) := by
  have hok : ∀ a ∈ bystander_room.players, ∀ u, m_alice a = some u →
      u.player.isSome = true := by
    intro a ha u hu
    have ha0 : a = 0 := by simpa [bystander_room] using ha
    subst ha0
    simp only [m_alice, reduceIte, Option.some.injEq] at hu
    rw [← hu]
    rfl
  have h1 := C4_turn_switch_thresholds.1 .Red "!!" m_alice assassin_room 0 "alice"
    alice_user red_teammate_player (by decide) rfl rfl rfl (by decide) (by decide)
  have h2 := C4_turn_switch_thresholds.2 .Red "!b" "b" m_alice bystander_room 0 "alice"
    alice_user red_teammate_player
    { word := "b", card_type := .Bystander, flipped := false }
    (by decide) rfl rfl rfl (by decide) (by decide) (by decide) (by decide) rfl hok
  refine ⟨h1.1, by decide, by decide, ?_⟩
  rw [h2]
  decide

/-- Counterexample to C2 as stated: in RedTurn with `red_score = 9` (reachable,
since a red own-agent guess within the clue limit does not switch the turn), a
red teammate flipping a BlueAgent card yields `GameEnd`, not `BlueTurn`, even
though `blue_score` (0, becoming 1) has not reached 8 — the turn-switch
override also fires on `red_score = 9`, a proviso the claim omits. -/
theorem C2_counterexample :
    red9_room.state = .RedTurn ∧
    red9_room.blue_score = 0 ∧ red9_room.red_score = 9 ∧
    (∃ card, find_card "w" red9_room.board = some card ∧
      card.card_type = .BlueAgent) ∧
    ((turn_logic .Red (some "!w") m_alice red9_room 0 "alice").map
      (fun r => (r.2.state, r.2.blue_score))) = some (.GameEnd, 1) ∧
    CodenamesState.GameEnd ≠ CodenamesState.BlueTurn := by
  refine ⟨rfl, rfl, rfl, ⟨_, rfl, rfl⟩, ?_, by decide⟩
  decide

/-- C2 as amended: in RedTurn, a red-Teammate guess that flips a BlueAgent
increments `blue_score` and switches to BlueTurn provided neither win
threshold fires (`blue_score + 1 ≠ 8` and also `red_score ≠ 9`); a guess that
flips a RedAgent increments `red_score` and leaves the turn unswitched
provided the clue guess-limit is not exceeded (and `red_score` has not
reached 9). Symmetrically with the teams swapped in BlueTurn. -/
theorem C2_guess_scoring_and_switch :
    (∀ (line w : String) (m : UserMap) (room : CodenamesRoom) (addr : Nat)
        (uname : String) (user : User) (player : CodenamesPlayer) (card : CodenamesCard),
      m addr = some user → user.player = some player →
      CodenamesTeam.Red = player.team → player.role = .Teammate →
      room.state = .RedTurn →
      rs_starts_with line "!!" = false → rs_starts_with line "!" = true →
      rs_trim (rs_drop line 1) = w →
      find_card w room.board = some card → card.card_type = .BlueAgent →
      (∀ a ∈ room.players, ∀ u, m a = some u → u.player.isSome = true) →
      room.red_score ≠ 9 → room.blue_score + 1 ≠ 8 →
      (turn_logic .Red (some line) m room addr uname).map
          (fun r => (r.2.state, r.2.red_score, r.2.blue_score, r.2.guesses)) =
        some (.BlueTurn, room.red_score, room.blue_score + 1, 0)) ∧
    (∀ (line w : String) (m : UserMap) (room : CodenamesRoom) (addr : Nat)
        (uname : String) (user : User) (player : CodenamesPlayer) (card : CodenamesCard),
      m addr = some user → user.player = some player →
      CodenamesTeam.Red = player.team → player.role = .Teammate →
      room.state = .RedTurn →
      rs_starts_with line "!!" = false → rs_starts_with line "!" = true →
      rs_trim (rs_drop line 1) = w →
      find_card w room.board = some card → card.card_type = .RedAgent →
      (∀ a ∈ room.players, ∀ u, m a = some u → u.player.isSome = true) →
      (∀ c, room.clue = some c → ¬(room.guesses + 1 > c.cards_to_match)) →
      room.red_score ≠ 9 →
      (turn_logic .Red (some line) m room addr uname).map
          (fun r => (r.2.state, r.2.red_score, r.2.blue_score, r.2.guesses)) =
        some (.RedTurn, room.red_score + 1, room.blue_score, room.guesses + 1)) ∧
    (∀ (line w : String) (m : UserMap) (room : CodenamesRoom) (addr : Nat)
        (uname : String) (user : User) (player : CodenamesPlayer) (card : CodenamesCard),
      m addr = some user → user.player = some player →
      CodenamesTeam.Blue = player.team → player.role = .Teammate →
      room.state = .BlueTurn →
      rs_starts_with line "!!" = false → rs_starts_with line "!" = true →
      rs_trim (rs_drop line 1) = w →
      find_card w room.board = some card → card.card_type = .RedAgent →
      (∀ a ∈ room.players, ∀ u, m a = some u → u.player.isSome = true) →
      room.red_score + 1 ≠ 9 → room.blue_score ≠ 8 →
      (turn_logic .Blue (some line) m room addr uname).map
          (fun r => (r.2.state, r.2.red_score, r.2.blue_score, r.2.guesses)) =
        some (.RedTurn, room.red_score + 1, room.blue_score, 0)) ∧
    (∀ (line w : String) (m : UserMap) (room : CodenamesRoom) (addr : Nat)
        (uname : String) (user : User) (player : CodenamesPlayer) (card : CodenamesCard),
      m addr = some user → user.player = some player →
      CodenamesTeam.Blue = player.team → player.role = .Teammate →
      room.state = .BlueTurn →
      rs_starts_with line "!!" = false → rs_starts_with line "!" = true →
      rs_trim (rs_drop line 1) = w →
      find_card w room.board = some card → card.card_type = .BlueAgent →
      (∀ a ∈ room.players, ∀ u, m a = some u → u.player.isSome = true) →
      (∀ c, room.clue = some c → ¬(room.guesses + 1 > c.cards_to_match)) →
      room.blue_score ≠ 8 →
      (turn_logic .Blue (some line) m room addr uname).map
          (fun r => (r.2.state, r.2.red_score, r.2.blue_score, r.2.guesses)) =
        some (.BlueTurn, room.red_score, room.blue_score + 1, room.guesses + 1)) := by
  refine ⟨?_, ?_, ?_, ?_⟩
  · intro line w m room addr uname user player card hm hp hteam hrole hstate
      h2 h1 hw hfind hcard hok hr9 hb8
    have hok1 : ∀ a ∈ room.players, ∀ u,
        broadcast_chat_everyone (user.user_name ++ " Guessed " ++ w ++ "\r\n")
          { room with guesses := room.guesses + 1 } m a = some u →
        u.player.isSome = true :=
      broadcast_everyone_hok _ _ room _ hok
    have href := refresh_prompt_some { room with guesses := room.guesses + 1, board := flip_board w room.board, blue_score := room.blue_score + 1 }
      (broadcast_chat_everyone (user.user_name ++ " Guessed " ++ w ++ "\r\n")
        { room with guesses := room.guesses + 1 } m) hok1
    simp only [turn_logic, hm, hp, ← hteam, hrole, h2, h1, hw, hfind, hcard,
      and_self, if_true, Bool.false_eq_true, if_false, reduceIte]
    simp only [reduceCtorEq, reduceIte, beq_self_eq_true, Bool.true_or, href,
      Option.map_some']
    rw [(end_turn_fields _ _).1, (end_turn_fields _ _).2.1,
      (end_turn_fields _ _).2.2.1, (end_turn_fields _ _).2.2.2.1]
    rw [if_neg ?_, if_neg (by decide)]
    intro hcon
    rcases hcon with hcon | hcon
    · exact hr9 hcon
    · exact hb8 hcon
  · intro line w m room addr uname user player card hm hp hteam hrole hstate
      h2 h1 hw hfind hcard hok hlimit hr9
    have hok1 : ∀ a ∈ room.players, ∀ u,
        broadcast_chat_everyone (user.user_name ++ " Guessed " ++ w ++ "\r\n")
          { room with guesses := room.guesses + 1 } m a = some u →
        u.player.isSome = true :=
      broadcast_everyone_hok _ _ room _ hok
    have href := refresh_prompt_some { room with guesses := room.guesses + 1, board := flip_board w room.board, red_score := room.red_score + 1 }
      (broadcast_chat_everyone (user.user_name ++ " Guessed " ++ w ++ "\r\n")
        { room with guesses := room.guesses + 1 } m) hok1
    simp only [turn_logic, hm, hp, ← hteam, hrole, h2, h1, hw, hfind, hcard,
      and_self, if_true, Bool.false_eq_true, if_false, reduceIte]
    simp only [reduceCtorEq, reduceIte, Bool.false_or, href, Option.map_some']
    cases hclue : room.clue with
    | none =>
      simp only [hclue,
        (by decide : (CodenamesTeam.Red == CodenamesTeam.Blue) = false),
        Bool.or_false, Bool.false_eq_true, if_false, Option.map_some', hstate]
    | some c =>
      simp only [hclue]
      simp only [decide_eq_false (hlimit c hclue)]
      simp only [(by decide : (CodenamesTeam.Red == CodenamesTeam.Blue) = false),
        Bool.or_false, Bool.false_eq_true, if_false, Option.map_some', hstate]
  · intro line w m room addr uname user player card hm hp hteam hrole hstate
      h2 h1 hw hfind hcard hok hr9 hb8
    have hok1 : ∀ a ∈ room.players, ∀ u,
        broadcast_chat_everyone (user.user_name ++ " Guessed " ++ w ++ "\r\n")
          { room with guesses := room.guesses + 1 } m a = some u →
        u.player.isSome = true :=
      broadcast_everyone_hok _ _ room _ hok
    have href := refresh_prompt_some { room with guesses := room.guesses + 1, board := flip_board w room.board, red_score := room.red_score + 1 }
      (broadcast_chat_everyone (user.user_name ++ " Guessed " ++ w ++ "\r\n")
        { room with guesses := room.guesses + 1 } m) hok1
    simp only [turn_logic, hm, hp, ← hteam, hrole, h2, h1, hw, hfind, hcard,
      and_self, if_true, Bool.false_eq_true, if_false, reduceIte]
    simp only [reduceCtorEq, reduceIte, beq_self_eq_true, Bool.true_or, href,
      Option.map_some']
    rw [(end_turn_fields _ _).1, (end_turn_fields _ _).2.1,
      (end_turn_fields _ _).2.2.1, (end_turn_fields _ _).2.2.2.1]
    rw [if_neg ?_, if_pos rfl]
    intro hcon
    rcases hcon with hcon | hcon
    · exact hr9 hcon
    · exact hb8 hcon
  · intro line w m room addr uname user player card hm hp hteam hrole hstate
      h2 h1 hw hfind hcard hok hlimit hb8
    have hok1 : ∀ a ∈ room.players, ∀ u,
        broadcast_chat_everyone (user.user_name ++ " Guessed " ++ w ++ "\r\n")
          { room with guesses := room.guesses + 1 } m a = some u →
        u.player.isSome = true :=
      broadcast_everyone_hok _ _ room _ hok
    have href := refresh_prompt_some { room with guesses := room.guesses + 1, board := flip_board w room.board, blue_score := room.blue_score + 1 }
      (broadcast_chat_everyone (user.user_name ++ " Guessed " ++ w ++ "\r\n")
        { room with guesses := room.guesses + 1 } m) hok1
    simp only [turn_logic, hm, hp, ← hteam, hrole, h2, h1, hw, hfind, hcard,
      and_self, if_true, Bool.false_eq_true, if_false, reduceIte]
    simp only [reduceCtorEq, reduceIte, Bool.false_or, href, Option.map_some']
    cases hclue : room.clue with
    | none =>
      simp only [hclue,
        (by decide : (CodenamesTeam.Blue == CodenamesTeam.Red) = false),
        Bool.or_false, Bool.false_eq_true, if_false, Option.map_some', hstate]
    | some c =>
      simp only [hclue]
      simp only [decide_eq_false (hlimit c hclue)]
      simp only [(by decide : (CodenamesTeam.Blue == CodenamesTeam.Red) = false),
        Bool.or_false, Bool.false_eq_true, if_false, Option.map_some', hstate]

/-- Closed witness for C2 (amended): the red teammate flips the BlueAgent in
a fresh room (scores 0–0): `blue_score` becomes 1 and the state switches to
BlueTurn, and flipping a RedAgent instead leaves RedTurn with `red_score` 1. -/
theorem C2_witness :
    ((turn_logic .Red (some "!w") m_alice zero_room 0 "alice").map
        (fun r => (r.2.state, r.2.red_score, r.2.blue_score, r.2.guesses)) =
      some (.BlueTurn, 0, 1, 0)) ∧
    ((turn_logic .Red (some "!r") m_alice red_agent_room 0 "alice").map
        (fun r => (r.2.state, r.2.red_score, r.2.blue_score, r.2.guesses)) =
      some (.RedTurn, 1, 0, 1)) := by
  have hok : ∀ a ∈ red9_room.players, ∀ u, m_alice a = some u →
      u.player.isSome = true := by
    intro a ha u hu
    have ha0 : a = 0 := by simpa [red9_room] using ha
    subst ha0
    simp only [m_alice, reduceIte, Option.some.injEq] at hu
    rw [← hu]
    rfl
  constructor
  · exact C2_guess_scoring_and_switch.1 "!w" "w" m_alice
      zero_room 0 "alice" alice_user red_teammate_player
      { word := "w", card_type := .BlueAgent, flipped := false }
      (by decide) rfl rfl rfl rfl (by decide) (by decide) (by decide) (by decide)
      rfl hok (by decide) (by decide)
  · exact C2_guess_scoring_and_switch.2.1 "!r" "r" m_alice
      red_agent_room 0 "alice" alice_user red_teammate_player
      { word := "r", card_type := .RedAgent, flipped := false }
      (by decide) rfl rfl rfl rfl (by decide) (by decide) (by decide) (by decide)
      rfl hok (by intro c hc; cases hc) (by decide)

theorem broadcast_everyone_member (msg : String) (room : CodenamesRoom)
    (m : UserMap) (a : Nat) (u : User) (p : CodenamesPlayer)
    (hmem : a ∈ room.players) (hu : m a = some u) (hp : u.player = some p)
    (haddr : u.socket_addr = a) :
    broadcast_chat_everyone msg room m a =
      some { u with player := some (push_msg (rs_trim msg) p) } := by
  have hc : room.players.contains u.socket_addr = true := by
    rw [haddr]; exact List.elem_eq_true_of_mem hmem
  simp only [broadcast_everyone_apply, hu, hc, if_true, hp]

/-- Counterexample to C7 as stated: an active-team Teammate guess naming no
card still increments `guesses` before the lookup — with `guesses = 0`
beforehand, the room afterwards has `guesses = 1`, so the state is not
"otherwise unchanged". -/
theorem C7_counterexample :
    bystander_room.state = .RedTurn ∧
    find_card "zz" bystander_room.board = none ∧
    bystander_room.guesses = 0 ∧
    ((turn_logic .Red (some "!zz") m_alice bystander_room 0 "alice").map
      (fun r => r.2.guesses)) = some 1 ∧
    (1 : Int) ≠ 0 := by
  refine ⟨rfl, rfl, rfl, ?_, by decide⟩
  decide

/-- C7 as amended: in RedTurn or BlueTurn, an active-team Teammate guess
naming no card broadcasts the guess line and a "not a valid card name" line
to every member, increments `guesses` by one, and changes nothing else:
state, scores, clue, board and every member's prompt-dedup marker are
untouched. -/
theorem C7_unknown_guess (team : CodenamesTeam) (line w : String) (m : UserMap)
    (room : CodenamesRoom) (addr : Nat) (uname : String) (user : User)
    (player : CodenamesPlayer)
    (hm : m addr = some user) (hp : user.player = some player)
    (hteam : team = player.team) (hrole : player.role = .Teammate)
    (hstate : room.state = .RedTurn ∨ room.state = .BlueTurn)
    (h2 : rs_starts_with line "!!" = false) (h1 : rs_starts_with line "!" = true)
    (hw : rs_trim (rs_drop line 1) = w)
    (hfind : find_card w room.board = none) :
    ∃ m', turn_logic team (some line) m room addr uname =
        some (m', { room with guesses := room.guesses + 1 }) ∧
      (∀ a, ((m' a).bind User.player).map CodenamesPlayer.state_prompted =
        ((m a).bind User.player).map CodenamesPlayer.state_prompted) ∧
      (∀ a ∈ room.players, ∀ u p, m a = some u → u.player = some p →
        u.socket_addr = a →
        m' a = some { u with player := some { p with chat_queue :=
          p.chat_queue ++ [rs_trim (user.user_name ++ " Guessed " ++ w ++ "\r\n"),
            rs_trim (w ++ " is not a valid card name to guess\r\n")] } }) := by
  refine ⟨broadcast_chat_everyone (w ++ " is not a valid card name to guess\r\n")
      { room with guesses := room.guesses + 1 }
      (broadcast_chat_everyone (user.user_name ++ " Guessed " ++ w ++ "\r\n")
        { room with guesses := room.guesses + 1 } m), ?_, ?_, ?_⟩
  · simp only [turn_logic, hm, hp, ← hteam, hrole, h2, h1, hw, hfind,
      and_self, if_true, Bool.false_eq_true, if_false, reduceIte]
  · intro a
    rcases broadcast_everyone_shape (user.user_name ++ " Guessed " ++ w ++ "\r\n")
        { room with guesses := room.guesses + 1 } m a with
      ⟨e1, e0⟩ | ⟨u0, u1, e0, e1, _, _, _, _, _, _, sp1⟩
    · rcases broadcast_everyone_shape (w ++ " is not a valid card name to guess\r\n")
          { room with guesses := room.guesses + 1 }
          (broadcast_chat_everyone (user.user_name ++ " Guessed " ++ w ++ "\r\n")
            { room with guesses := room.guesses + 1 } m) a with
        ⟨f1, f0⟩ | ⟨v0, v1, f0, f1, _, _, _, _, _, _, sp2⟩
      · rw [f1, e0]
      · rw [e1] at f0; cases f0
    · rcases broadcast_everyone_shape (w ++ " is not a valid card name to guess\r\n")
          { room with guesses := room.guesses + 1 }
          (broadcast_chat_everyone (user.user_name ++ " Guessed " ++ w ++ "\r\n")
            { room with guesses := room.guesses + 1 } m) a with
        ⟨f1, f0⟩ | ⟨v0, v1, f0, f1, _, _, _, _, _, _, sp2⟩
      · rw [e1] at f0; cases f0
      · rw [f1, e0]
        rw [e1] at f0
        obtain rfl : u1 = v0 := Option.some.inj f0
        show v1.player.map CodenamesPlayer.state_prompted =
          u0.player.map CodenamesPlayer.state_prompted
        rw [sp2, sp1]
  · intro a ha u p hu hup haddr
    have b1 := broadcast_everyone_member (user.user_name ++ " Guessed " ++ w ++ "\r\n")
      { room with guesses := room.guesses + 1 } m a u p ha hu hup haddr
    have b2 := broadcast_everyone_member (w ++ " is not a valid card name to guess\r\n")
      { room with guesses := room.guesses + 1 }
      (broadcast_chat_everyone (user.user_name ++ " Guessed " ++ w ++ "\r\n")
        { room with guesses := room.guesses + 1 } m) a
      { u with player := some (push_msg (rs_trim (user.user_name ++ " Guessed " ++ w ++ "\r\n")) p) }
      (push_msg (rs_trim (user.user_name ++ " Guessed " ++ w ++ "\r\n")) p)
      ha b1 rfl haddr
    rw [b2]
    simp [push_msg]

/-- Closed witness for C7 (amended): the concrete unknown guess `!zz`
broadcasts both lines to the sole member, bumps `guesses` to 1 and leaves
the rest of the room as it was. -/
theorem C7_witness :
    ∃ m', turn_logic .Red (some "!zz") m_alice bystander_room 0 "alice" =
        some (m', { bystander_room with guesses := bystander_room.guesses + 1 }) ∧
      (∀ a, ((m' a).bind User.player).map CodenamesPlayer.state_prompted =
        ((m_alice a).bind User.player).map CodenamesPlayer.state_prompted) := by
  obtain ⟨m', h1, h2, _⟩ := C7_unknown_guess .Red "!zz" "zz" m_alice bystander_room
    0 "alice" alice_user red_teammate_player (by decide) rfl rfl rfl
    (Or.inl rfl) (by decide) (by decide) (by decide) rfl
  exact ⟨m', h1, h2⟩

/-- Counterexample to C8 as stated: the Assassin flip returns before the
refresh step, so the sole member's dedup marker is still `some RedTurn`
(not cleared) even though the guess flipped a card. -/
theorem C8_counterexample :
    ((turn_logic .Red (some "!kill") m_alice assassin_room 0 "alice").map
      (fun r => (find_card "kill" r.2.board).map CodenamesCard.flipped)) =
      some (some true) ∧
    ((turn_logic .Red (some "!kill") m_alice assassin_room 0 "alice").map
      (fun r => ((r.1 0).bind User.player).map CodenamesPlayer.state_prompted)) =
      some (some (some .RedTurn)) ∧
    (some (some CodenamesState.RedTurn) : Option (Option CodenamesState)) ≠
      some none := by
  refine ⟨?_, ?_, by decide⟩ <;> decide

/-- C8 as amended: every guess that flips a non-Assassin card clears the
prompt-dedup marker of every member of the room (an Assassin flip skips the
clear and ends the game instead). -/
theorem C8_flip_clears_markers (team : CodenamesTeam) (line w : String)
    (m : UserMap) (room : CodenamesRoom) (addr : Nat) (uname : String)
    (user : User) (player : CodenamesPlayer) (card : CodenamesCard)
    (hm : m addr = some user) (hp : user.player = some player)
    (hteam : team = player.team) (hrole : player.role = .Teammate)
    (h2 : rs_starts_with line "!!" = false) (h1 : rs_starts_with line "!" = true)
    (hw : rs_trim (rs_drop line 1) = w)
    (hfind : find_card w room.board = some card)
    (hne : card.card_type ≠ .Assassin)
    (hmem : ∀ a ∈ room.players, ∃ u, m a = some u ∧ u.player.isSome = true) :
    (turn_logic team (some line) m room addr uname).isSome = true ∧
    (∀ mr, turn_logic team (some line) m room addr uname = some mr →
      ∀ a ∈ room.players, ∃ u' p', mr.1 a = some u' ∧ u'.player = some p' ∧
        p'.state_prompted = none) := by
  have hok : ∀ a ∈ room.players, ∀ u, m a = some u → u.player.isSome = true := by
    intro a ha u hu
    obtain ⟨u0, hu0, hps⟩ := hmem a ha
    rw [hu0] at hu
    cases hu
    exact hps
  have hok1 : ∀ a ∈ room.players, ∀ u,
      broadcast_chat_everyone (user.user_name ++ " Guessed " ++ w ++ "\r\n")
        { room with guesses := room.guesses + 1 } m a = some u →
      u.player.isSome = true :=
    broadcast_everyone_hok _ _ room _ hok
  have hmem1 : ∀ a ∈ room.players, ∃ u, broadcast_chat_everyone
      (user.user_name ++ " Guessed " ++ w ++ "\r\n")
      { room with guesses := room.guesses + 1 } m a = some u ∧
      u.player.isSome = true := by
    intro a ha
    obtain ⟨u0, hu0, hps⟩ := hmem a ha
    rcases broadcast_everyone_shape (user.user_name ++ " Guessed " ++ w ++ "\r\n")
        { room with guesses := room.guesses + 1 } m a with
      ⟨e1, e0⟩ | ⟨v0, v1, e0, e1, _, _, _, hiso, _, _, _⟩
    · rw [e0] at hu0; cases hu0
    · rw [e0] at hu0
      cases hu0
      exact ⟨v1, e1, by rw [hiso]; exact hps⟩
  have href : ∀ (room2 : CodenamesRoom), room2.players = room.players →
      refresh_prompt room2
        (broadcast_chat_everyone (user.user_name ++ " Guessed " ++ w ++ "\r\n")
          { room with guesses := room.guesses + 1 } m) =
      some (fun a =>
        match broadcast_chat_everyone (user.user_name ++ " Guessed " ++ w ++ "\r\n")
            { room with guesses := room.guesses + 1 } m a with
        | none => none
        | some u =>
          if room2.players.contains a then
            match u.player with
            | some p => some { u with player := some { p with state_prompted := none } }
            | none => some u
          else some u) := by
    intro room2 hpl
    exact refresh_prompt_some room2 _ (by rw [hpl]; exact hok1)
  have hcleared : ∀ (room2 : CodenamesRoom), room2.players = room.players →
      ∀ a ∈ room.players, ∃ u' p',
        (fun a =>
          match broadcast_chat_everyone (user.user_name ++ " Guessed " ++ w ++ "\r\n")
              { room with guesses := room.guesses + 1 } m a with
          | none => none
          | some u =>
            if room2.players.contains a then
              match u.player with
              | some p => some { u with player := some { p with state_prompted := none } }
              | none => some u
            else some u) a = some u' ∧ u'.player = some p' ∧
          p'.state_prompted = none := by
    intro room2 hpl a ha
    obtain ⟨u1, hu1, hps1⟩ := hmem1 a ha
    obtain ⟨p1, hp1⟩ := Option.isSome_iff_exists.mp hps1
    refine ⟨{ u1 with player := some { p1 with state_prompted := none } },
      { p1 with state_prompted := none }, ?_, rfl, rfl⟩
    simp only [hu1, hp1]
    rw [if_pos (by rw [hpl]; exact List.elem_eq_true_of_mem ha)]
  cases hct : card.card_type with
  | Assassin => exact absurd hct hne
  | RedAgent =>
    have hr := href { room with guesses := room.guesses + 1, board := flip_board w room.board, red_score := room.red_score + 1 } rfl
    simp only [turn_logic, hm, hp, ← hteam, hrole, h2, h1, hw, hfind, hct,
      and_self, if_true, Bool.false_eq_true, if_false, reduceIte]
    simp only [reduceCtorEq, reduceIte, hr]
    constructor
    · split <;> rfl
    · intro mr hmr a ha
      have hres : mr.1 = (fun a =>
          match broadcast_chat_everyone (user.user_name ++ " Guessed " ++ w ++ "\r\n")
              { room with guesses := room.guesses + 1 } m a with
          | none => none
          | some u =>
            if ({ room with guesses := room.guesses + 1, board := flip_board w room.board, red_score := room.red_score + 1 } : CodenamesRoom).players.contains a then
              match u.player with
              | some p => some { u with player := some { p with state_prompted := none } }
              | none => some u
            else some u) := by
        split at hmr <;> (cases hmr; rfl)
      rw [hres]
      exact hcleared _ rfl a ha
  | BlueAgent =>
    have hr := href { room with guesses := room.guesses + 1, board := flip_board w room.board, blue_score := room.blue_score + 1 } rfl
    simp only [turn_logic, hm, hp, ← hteam, hrole, h2, h1, hw, hfind, hct,
      and_self, if_true, Bool.false_eq_true, if_false, reduceIte]
    simp only [reduceCtorEq, reduceIte, hr]
    constructor
    · split <;> rfl
    · intro mr hmr a ha
      have hres : mr.1 = (fun a =>
          match broadcast_chat_everyone (user.user_name ++ " Guessed " ++ w ++ "\r\n")
              { room with guesses := room.guesses + 1 } m a with
          | none => none
          | some u =>
            if ({ room with guesses := room.guesses + 1, board := flip_board w room.board, blue_score := room.blue_score + 1 } : CodenamesRoom).players.contains a then
              match u.player with
              | some p => some { u with player := some { p with state_prompted := none } }
              | none => some u
            else some u) := by
        split at hmr <;> (cases hmr; rfl)
      rw [hres]
      exact hcleared _ rfl a ha
  | Bystander =>
    have hr := href { room with guesses := room.guesses + 1, board := flip_board w room.board } rfl
    simp only [turn_logic, hm, hp, ← hteam, hrole, h2, h1, hw, hfind, hct,
      and_self, if_true, Bool.false_eq_true, if_false, reduceIte]
    simp only [reduceCtorEq, reduceIte, hr, Bool.true_or]
    constructor
    · rfl
    · intro mr hmr a ha
      have hres : mr.1 = (fun a =>
          match broadcast_chat_everyone (user.user_name ++ " Guessed " ++ w ++ "\r\n")
              { room with guesses := room.guesses + 1 } m a with
          | none => none
          | some u =>
            if ({ room with guesses := room.guesses + 1, board := flip_board w room.board } : CodenamesRoom).players.contains a then
              match u.player with
              | some p => some { u with player := some { p with state_prompted := none } }
              | none => some u
            else some u) := by
        cases hmr
        rfl
      rw [hres]
      exact hcleared _ rfl a ha

/-- Closed witness for C8 (amended): the red teammate flips the sole
Bystander card, and the member's dedup marker (previously `some RedTurn`)
is cleared to `none`. -/
theorem C8_witness :
    (turn_logic .Red (some "!b") m_alice bystander_room 0 "alice").isSome = true ∧
    (∀ mr, turn_logic .Red (some "!b") m_alice bystander_room 0 "alice" = some mr →
      ∃ u' p', mr.1 0 = some u' ∧ u'.player = some p' ∧
        p'.state_prompted = none) := by
  have hmem : ∀ a ∈ bystander_room.players, ∃ u, m_alice a = some u ∧
      u.player.isSome = true := by
    intro a ha
    have ha0 : a = 0 := by simpa [bystander_room] using ha
    subst ha0
    exact ⟨alice_user, rfl, rfl⟩
  have h := C8_flip_clears_markers .Red "!b" "b" m_alice bystander_room 0 "alice"
    alice_user red_teammate_player
    { word := "b", card_type := .Bystander, flipped := false }
    (by decide) rfl rfl rfl (by decide) (by decide) (by decide) (by decide)
    (by decide) hmem
  exact ⟨h.1, fun mr hmr => h.2 mr hmr 0 (by decide)⟩

theorem user_player_eta {u : User} {p : CodenamesPlayer} (h : u.player = some p) :
    ({ u with player := some p } : User) = u := by
  cases u
  simp only at h
  rw [← h]

theorem gr_impl_eta {gr : GameRoom} {room : CodenamesRoom}
    (h : gr.impl_room = some room) :
    ({ gr with impl_room := some room } : GameRoom) = gr := by
  cases gr
  simp only at h
  rw [← h]

theorem insert_addr_mem {a : Nat} {l : List Nat} (h : l.contains a = true) :
    insert_addr a l = l := by
  unfold insert_addr
  rw [h]
  rfl

/-- `initialize_user_board` in the steady state — the session already has an
overlay and is already a member of its initialized room — changes nothing. -/
theorem init_user_board_steady {user : User} {rooms : RoomsMap} {fb : Board}
    {k : Int} {gr : GameRoom} {room : CodenamesRoom} {p0 : CodenamesPlayer}
    (hp : user.player = some p0) (hkey : user.game_room_key = some k)
    (hrooms : mlookup rooms k = some gr) (himpl : gr.impl_room = some room)
    (hmem : room.players.contains user.socket_addr = true)
    (hnd : (rooms.map Prod.fst).Nodup) :
    init_user_board user rooms fb = (user, rooms, some (k, room)) := by
  unfold init_user_board
  rw [hp]
  simp only [Option.getD_some]
  rw [user_player_eta hp]
  rw [hkey]
  simp only [hrooms, himpl]
  rw [insert_addr_mem hmem]
  have hroom_eta : ({ room with players := room.players } : CodenamesRoom) = room := rfl
  rw [hroom_eta, gr_impl_eta himpl, minsert_self hnd hrooms]

theorem collect_pairs_spec (m : UserMap) : ∀ (ps : List Nat),
    (∀ a ∈ ps, ∃ u, m a = some u) →
    ∃ prs, collect_pairs m ps = some prs ∧
      ∀ pr : CodenamesTeam × CodenamesRole,
        (pr ∈ prs ↔ ∃ a ∈ ps, ∃ u p, m a = some u ∧ u.player = some p ∧
          (p.team, p.role) = pr) := by
  intro ps
  induction ps with
  | nil =>
    intro _
    refine ⟨[], rfl, fun pr => ?_⟩
    simp
  | cons a rest ih =>
    intro hall
    obtain ⟨u, hu⟩ := hall a (List.mem_cons_self _ _)
    obtain ⟨prs, hprs, hiff⟩ := ih (fun b hb => hall b (List.mem_cons_of_mem _ hb))
    cases hup : u.player with
    | none =>
      refine ⟨prs, ?_, fun pr => ?_⟩
      · simp only [collect_pairs, hu, hprs, hup]
      · rw [hiff pr]
        constructor
        · rintro ⟨b, hb, w, q, hw, hq, hpr⟩
          exact ⟨b, List.mem_cons_of_mem _ hb, w, q, hw, hq, hpr⟩
        · rintro ⟨b, hb, w, q, hw, hq, hpr⟩
          rcases List.mem_cons.mp hb with rfl | hb
          · rw [hu] at hw
            cases hw
            rw [hup] at hq
            cases hq
          · exact ⟨b, hb, w, q, hw, hq, hpr⟩
    | some p =>
      refine ⟨(p.team, p.role) :: prs, ?_, fun pr => ?_⟩
      · simp only [collect_pairs, hu, hprs, hup]
      · constructor
        · intro hin
          rcases List.mem_cons.mp hin with rfl | hin
          · exact ⟨a, List.mem_cons_self _ _, u, p, hu, hup, rfl⟩
          · obtain ⟨b, hb, w, q, hw, hq, hpr⟩ := (hiff pr).mp hin
            exact ⟨b, List.mem_cons_of_mem _ hb, w, q, hw, hq, hpr⟩
        · rintro ⟨b, hb, w, q, hw, hq, hpr⟩
          rcases List.mem_cons.mp hb with rfl | hb
          · rw [hu] at hw
            cases hw
            rw [hup] at hq
            cases hq
            rw [← hpr]
            exact List.mem_cons_self _ _
          · exact List.mem_cons_of_mem _ ((hiff pr).mpr ⟨b, hb, w, q, hw, hq, hpr⟩)

theorem verify_room_spec (room : CodenamesRoom) (m : UserMap)
    (hall : ∀ a ∈ room.players, ∃ u, m a = some u) :
    ∃ vb, verify_room room m = some vb ∧
      (vb = true ↔ ∀ pr ∈ required_pairs, ∃ a ∈ room.players, ∃ u p,
        m a = some u ∧ u.player = some p ∧ (p.team, p.role) = pr) := by
  obtain ⟨prs, hprs, hiff⟩ := collect_pairs_spec m room.players hall
  refine ⟨required_pairs.all (fun pr => prs.contains pr), ?_, ?_⟩
  · simp only [verify_room, hprs, Option.map_some']
  · rw [List.all_eq_true]
    constructor
    · intro h pr hpr
      exact (hiff pr).mp (List.mem_of_elem_eq_true (h pr hpr))
    · intro h pr hpr
      exact List.elem_eq_true_of_mem ((hiff pr).mpr (h pr hpr))

/-- C5: in WaitingToStart, the `start` command starts the game and announces
it to every member iff every pair in {Red,Blue}×{Spymaster,Teammate} is held
by at least one member (Floating/Spectator members count toward none of the
four required pairs); otherwise a failure line is broadcast and the room's
registry entry still holds the WaitingToStart room. -/
theorem C5_start_readiness (addr : Nat) (line : String) (m : UserMap)
    (rooms : RoomsMap) (fb : Board) (k : Int) (gr : GameRoom)
    (room : CodenamesRoom) (user : User) (p0 : CodenamesPlayer)
    (hm : m addr = some user) (hp : user.player = some p0)
    (hkey : user.game_room_key = some k)
    (hrooms : mlookup rooms k = some gr) (himpl : gr.impl_room = some room)
    (hstate : room.state = .WaitingToStart)
    (hmemc : room.players.contains user.socket_addr = true)
    (hnd : (rooms.map Prod.fst).Nodup)
    (htrim : rs_trim line = "start")
    (hall : ∀ a ∈ room.players, ∃ u, m a = some u) :
    ∃ vb, verify_room room m = some vb ∧
      (vb = true ↔ ∀ pr ∈ required_pairs, ∃ a ∈ room.players, ∃ u p,
        m a = some u ∧ u.player = some p ∧ (p.team, p.role) = pr) ∧
      (vb = true →
        codenames_logic addr m rooms (some line) fb =
          some (broadcast_chat_everyone (user.user_name ++ " Started the Game!\r\n")
            room m, set_room rooms k { room with state := .RedTurn }) ∧
        mlookup (set_room rooms k { room with state := .RedTurn }) k =
          some { gr with impl_room := some { room with state := .RedTurn } }) ∧
      (vb = false →
        codenames_logic addr m rooms (some line) fb =
          some (broadcast_chat_everyone
            "Cannot start the game yet, need at least a spymaster and a teammate on each team\r\n"
            room m, rooms) ∧
        mlookup rooms k = some gr) := by
  obtain ⟨vb, hvb, hready⟩ := verify_room_spec room m hall
  refine ⟨vb, hvb, hready, ?_, ?_⟩
  · intro htrue
    constructor
    · simp only [codenames_logic, get_user_state, hm,
        init_user_board_steady hp hkey hrooms himpl hmemc hnd,
        mupdate_self hm, hp, hstate, htrim, reduceIte, hvb, htrue]
    · unfold set_room
      rw [hrooms, mlookup_minsert, if_pos rfl]
  · intro hfalse
    constructor
    · simp only [codenames_logic, get_user_state, hm,
        init_user_board_steady hp hkey hrooms himpl hmemc hnd,
        mupdate_self hm, hp, hstate, htrim, reduceIte, hvb, hfalse]
    · exact hrooms

/-- Closed witness for C5: with all four required pairs present, `start`
flips the registry's room to RedTurn and the start line is broadcast. -/
theorem C5_witness :
    codenames_logic 0 m_four rooms_one (some "start") [] =
      some (broadcast_chat_everyone ("alice0 Started the Game!\r\n")
        waiting_room m_four,
        set_room rooms_one 1 { waiting_room with state := .RedTurn }) ∧
    mlookup (set_room rooms_one 1 { waiting_room with state := .RedTurn }) 1 =
      some { gr_one with impl_room := some { waiting_room with state := .RedTurn } } := by
  have hall : ∀ a ∈ waiting_room.players, ∃ u, m_four a = some u := by
    intro a ha
    fin_cases ha
    · exact ⟨mk_user 0 .Red .Spymaster, rfl⟩
    · exact ⟨mk_user 1 .Red .Teammate, rfl⟩
    · exact ⟨mk_user 2 .Blue .Spymaster, rfl⟩
    · exact ⟨mk_user 3 .Blue .Teammate, rfl⟩
  obtain ⟨vb, hvb, _, htrue, _⟩ := C5_start_readiness 0 "start" m_four rooms_one []
    1 gr_one waiting_room (mk_user 0 .Red .Spymaster) (mk_player .Red .Spymaster)
    rfl rfl rfl rfl rfl rfl (by decide) (by decide) (by decide) hall
  have hcomp : verify_room waiting_room m_four = some true := by decide
  rw [hvb] at hcomp
  exact htrue (Option.some.inj hcomp)

/-- Counterexample to C9 as stated: when the session's room slot has no live
game yet, `codenames_prompt` creates the room (installing a fresh board and
the session as first member), so produce-prompt does change the registry. -/
theorem C9_counterexample :
    (mlookup rooms_empty 1).isSome = true ∧
    ((mlookup rooms_empty 1).bind GameRoom.impl_room) = none ∧
    ((codenames_prompt 0 m_alice rooms_empty blue_board).map
      (fun r => decide (r.2.2 = rooms_empty))) = some false := by
  refine ⟨rfl, rfl, ?_⟩
  decide

/-- C9 as amended: in the steady state — the session already has an overlay
and is a member of its (already created) room — `codenames_prompt` has no
side effects beyond draining the session's own queue and setting its dedup
marker: the registry is returned unchanged, every other session's entry is
untouched, and the session's own entry changes only in `chat_queue`
(drained) and `state_prompted` (set to the room's state). -/
theorem C9_prompt_frame (addr : Nat) (m : UserMap) (rooms : RoomsMap)
    (fb : Board) (k : Int) (gr : GameRoom) (room : CodenamesRoom)
    (user : User) (p0 : CodenamesPlayer)
    (hm : m addr = some user) (hp : user.player = some p0)
    (hkey : user.game_room_key = some k)
    (hrooms : mlookup rooms k = some gr) (himpl : gr.impl_room = some room)
    (hmemc : room.players.contains user.socket_addr = true)
    (hnd : (rooms.map Prod.fst).Nodup) :
    ∃ out, codenames_prompt addr m rooms fb =
      some (out, mupdate m addr (prompt_frame_user user p0 room.state), rooms) ∧
      (∀ a, a ≠ addr →
        mupdate m addr (prompt_frame_user user p0 room.state) a = m a) := by
  have hinit : init_user_board { user with player := some { p0 with chat_queue := [] } } rooms fb = ({ user with player := some { p0 with chat_queue := [] } }, rooms, some (k, room)) :=
    init_user_board_steady rfl hkey hrooms himpl hmemc hnd
  by_cases hsp : p0.state_prompted = some room.state
  · rw [hsp] at hinit
    refine ⟨render_prompt p0.chat_queue, ?_,
      fun a ha => by rw [mupdate_apply, if_neg ha]⟩
    simp only [codenames_prompt, get_user_state, hm, hp, hinit,
      mupdate_mupdate, hsp, if_pos rfl, reduceIte, prompt_frame_user]
  · refine ⟨render_prompt (p0.chat_queue ++ state_prompt_items room { p0 with chat_queue := [] } (mupdate m addr (prompt_frame_user user p0 room.state)) addr), ?_,
      fun a ha => by rw [mupdate_apply, if_neg ha]⟩
    simp only [codenames_prompt, get_user_state, hm, hp, hinit,
      mupdate_mupdate, hsp, if_false, reduceIte, prompt_frame_user]

/-- Closed witness for C9 (amended): in an initialized room with the session
already a member, the prompt call returns the registry unchanged and only
rewrites the session's own overlay (queue drained, marker set). -/
theorem C9_witness :
    ∃ out, codenames_prompt 0 m_four rooms_one blue_board =
      some (out, mupdate m_four 0 (prompt_frame_user (mk_user 0 .Red .Spymaster)
        (mk_player .Red .Spymaster) waiting_room.state), rooms_one) ∧
      (∀ a, a ≠ 0 →
        mupdate m_four 0 (prompt_frame_user (mk_user 0 .Red .Spymaster)
          (mk_player .Red .Spymaster) waiting_room.state) a = m_four a) :=
  C9_prompt_frame 0 m_four rooms_one blue_board 1 gr_one waiting_room
    (mk_user 0 .Red .Spymaster) (mk_player .Red .Spymaster)
    rfl rfl rfl rfl rfl (by decide) (by decide)

/-! ### Lemmas for the global no-panic invariant (C10) -/

theorem PointOk.refl (m : UserMap) : PointOk m m :=
  fun _ => ⟨fun h => h, fun u' hu' => Or.inl ⟨u', hu', rfl⟩⟩

theorem PointOk.trans {m1 m2 m3 : UserMap} (h12 : PointOk m1 m2)
    (h23 : PointOk m2 m3) : PointOk m1 m3 := by
  intro a
  refine ⟨fun h => (h23 a).1 ((h12 a).1 h), fun u' hu' => ?_⟩
  rcases (h23 a).2 u' hu' with ⟨u2, hu2, he⟩ | he
  · rcases (h12 a).2 u2 hu2 with ⟨u1, hu1, he2⟩ | he2
    · exact Or.inl ⟨u1, hu1, he.trans he2⟩
    · exact Or.inr (he.trans he2)
  · exact Or.inr he

theorem AddrOk_of_pointok {m m' : UserMap} (h : AddrOk m) (hp : PointOk m m') :
    AddrOk m' := by
  intro a u' hu'
  rcases (hp a).2 u' hu' with ⟨u, hu, he⟩ | he
  · exact he.trans (h a u hu)
  · exact he

theorem RoomOk_of_pointok {m m' : UserMap} {room : CodenamesRoom}
    (h : RoomOk m room) (hp : PointOk m m') : RoomOk m' room :=
  fun a ha => (hp a).1 (h a ha)

theorem RoomsOkE_of_pointok {m m' : UserMap} {rooms : RoomsMap}
    (h : RoomsOkE m rooms) (hp : PointOk m m') : RoomsOkE m' rooms :=
  fun p hpp room hroom => RoomOk_of_pointok (h p hpp room hroom) hp

theorem broadcast_everyone_pointok (msg : String) (room : CodenamesRoom)
    (m : UserMap) : PointOk m (broadcast_chat_everyone msg room m) := by
  intro a
  constructor
  · rintro ⟨u, hu, hps⟩
    rcases broadcast_everyone_shape msg room m a with ⟨e1, e0⟩ |
      ⟨u0, u1, e0, e1, _, _, _, hiso, _, _, _⟩
    · rw [e0] at hu; cases hu
    · rw [e0] at hu
      cases hu
      exact ⟨u1, e1, by rw [hiso]; exact hps⟩
  · intro u' hu'
    rcases broadcast_everyone_shape msg room m a with ⟨e1, e0⟩ |
      ⟨u0, u1, e0, e1, haddr', _, _, _, _, _, _⟩
    · rw [hu'] at e1; cases e1
    · rw [hu'] at e1
      cases e1
      exact Or.inl ⟨u0, e0, haddr'⟩

theorem broadcast_chat_shape (user_addr : Nat) (user_name msg : String)
    (room : CodenamesRoom) (m : UserMap) (a : Nat) :
    (broadcast_chat user_addr user_name msg room m a = none ∧ m a = none) ∨
    (∃ u u', m a = some u ∧ broadcast_chat user_addr user_name msg room m a = some u' ∧
      u'.socket_addr = u.socket_addr ∧ u'.player.isSome = u.player.isSome) := by
  cases hma : m a with
  | none => exact Or.inl ⟨by rw [broadcast_chat_apply, hma], rfl⟩
  | some u =>
    right
    by_cases hc : room.players.contains u.socket_addr ∧ u.socket_addr ≠ user_addr
    · cases hp : u.player with
      | none =>
        refine ⟨u, u, rfl, ?_, rfl, rfl⟩
        rw [broadcast_chat_apply, hma]
        simp only [if_pos hc, hp]
      | some p =>
        refine ⟨u, { u with player := some (push_msg (user_name ++ ": " ++ rs_trim msg) p) },
          rfl, ?_, rfl, by simp [hp]⟩
        rw [broadcast_chat_apply, hma]
        simp only [if_pos hc, hp]
    · refine ⟨u, u, rfl, ?_, rfl, rfl⟩
      rw [broadcast_chat_apply, hma]
      simp only [if_neg hc]

theorem broadcast_chat_pointok (user_addr : Nat) (user_name msg : String)
    (room : CodenamesRoom) (m : UserMap) :
    PointOk m (broadcast_chat user_addr user_name msg room m) := by
  intro a
  constructor
  · rintro ⟨u, hu, hps⟩
    rcases broadcast_chat_shape user_addr user_name msg room m a with ⟨e1, e0⟩ |
      ⟨u0, u1, e0, e1, _, hiso⟩
    · rw [e0] at hu; cases hu
    · rw [e0] at hu
      cases hu
      exact ⟨u1, e1, by rw [hiso]; exact hps⟩
  · intro u' hu'
    rcases broadcast_chat_shape user_addr user_name msg room m a with ⟨e1, e0⟩ |
      ⟨u0, u1, e0, e1, haddr', _⟩
    · rw [hu'] at e1; cases e1
    · rw [hu'] at e1
      cases e1
      exact Or.inl ⟨u0, e0, haddr'⟩

theorem mupdate_pointok {m : UserMap} {addr : Nat} {u : User}
    (haddr : u.socket_addr = addr)
    (hps : PlayerSome m addr → u.player.isSome = true) :
    PointOk m (mupdate m addr u) := by
  intro a
  by_cases ha : a = addr
  · subst ha
    constructor
    · intro h
      exact ⟨u, by rw [mupdate_apply, if_pos rfl], hps h⟩
    · intro u' hu'
      rw [mupdate_apply, if_pos rfl] at hu'
      cases hu'
      exact Or.inr haddr
  · constructor
    · rintro ⟨u0, hu0, hps0⟩
      exact ⟨u0, by rw [mupdate_apply, if_neg ha]; exact hu0, hps0⟩
    · intro u' hu'
      rw [mupdate_apply, if_neg ha] at hu'
      exact Or.inl ⟨u', hu', rfl⟩

theorem refresh_output_pointok (room2 : CodenamesRoom) (m : UserMap) :
    PointOk m (fun a =>
      match m a with
      | none => none
      | some u =>
        if room2.players.contains a then
          match u.player with
          | some p => some { u with player := some { p with state_prompted := none } }
          | none => some u
        else some u) := by
  intro a
  cases hma : m a with
  | none =>
    constructor
    · rintro ⟨u, hu, _⟩
      rw [hma] at hu
      cases hu
    · intro u' hu'
      simp only [hma] at hu'
      exact Option.noConfusion hu'
  | some u =>
    constructor
    · rintro ⟨u0, hu0, hps0⟩
      rw [hma] at hu0
      cases hu0
      simp only [PlayerSome, hma]
      by_cases hc : room2.players.contains a = true
      · cases hp : u.player with
        | none =>
          rw [hp] at hps0
          cases hps0
        | some p =>
          refine ⟨{ u with player := some { p with state_prompted := none } }, ?_, rfl⟩
          simp only [hc, if_true, hp]
      · refine ⟨u, ?_, hps0⟩
        simp only [hc, if_false, Bool.false_eq_true, reduceIte]
    · intro u' hu'
      simp only [hma] at hu'
      by_cases hc : room2.players.contains a = true
      · cases hp : u.player with
        | none =>
          simp only [hc, if_true, hp] at hu'
          cases hu'
          exact Or.inl ⟨u, rfl, rfl⟩
        | some p =>
          simp only [hc, if_true, hp] at hu'
          cases hu'
          exact Or.inl ⟨u, rfl, rfl⟩
      · simp only [hc, if_false, Bool.false_eq_true, reduceIte] at hu'
        cases hu'
        exact Or.inl ⟨u, rfl, rfl⟩

theorem mlookup_mem : ∀ {l : RoomsMap} {k : Int} {v : GameRoom},
    mlookup l k = some v → (k, v) ∈ l := by
  intro l
  induction l with
  | nil => intro k v h; cases h
  | cons p t ih =>
    intro k v h
    obtain ⟨pk, pv⟩ := p
    simp only [mlookup] at h
    by_cases hpk : pk = k
    · rw [if_pos hpk] at h
      cases h
      rw [hpk]
      exact List.mem_cons_self _ _
    · rw [if_neg hpk] at h
      exact List.mem_cons_of_mem _ (ih h)

theorem mem_minsert {l : RoomsMap} {k : Int} {v : GameRoom} :
    ∀ p ∈ minsert l k v, p ∈ l ∨ p = (k, v) := by
  intro p hp
  unfold minsert at hp
  by_cases hk : (mlookup l k).isSome
  · rw [if_pos hk] at hp
    obtain ⟨q, hq, hqe⟩ := List.mem_map.mp hp
    by_cases hq1 : q.1 = k
    · rw [if_pos hq1] at hqe
      exact Or.inr hqe.symm
    · rw [if_neg hq1] at hqe
      exact Or.inl (hqe ▸ hq)
  · rw [if_neg hk] at hp
    rcases List.mem_append.mp hp with h | h
    · exact Or.inl h
    · exact Or.inr (List.mem_singleton.mp h)

theorem mem_set_room {rooms : RoomsMap} {k : Int} {room2 : CodenamesRoom} :
    ∀ p ∈ set_room rooms k room2, p ∈ rooms ∨ p.2.impl_room = some room2 := by
  intro p hp
  unfold set_room at hp
  cases hg : mlookup rooms k with
  | none => rw [hg] at hp; exact Or.inl hp
  | some gr =>
    rw [hg] at hp
    rcases mem_minsert p hp with h | h
    · exact Or.inl h
    · right
      rw [h]

theorem mem_mremove {l : RoomsMap} {k : Int} : ∀ p ∈ mremove l k, p ∈ l := by
  intro p hp
  exact List.mem_of_mem_filter hp

theorem roomok_hok {m : UserMap} {room : CodenamesRoom} (h : RoomOk m room) :
    ∀ a ∈ room.players, ∀ u, m a = some u → u.player.isSome = true := by
  intro a ha u hu
  obtain ⟨u0, hu0, hps⟩ := h a ha
  rw [hu] at hu0
  cases hu0
  exact hps

theorem refresh_total (room2 roomB : CodenamesRoom) (msg : String) (m : UserMap)
    (hok : RoomOk m room2) :
    ∃ mr, refresh_prompt room2 (broadcast_chat_everyone msg roomB m) = some mr ∧
      PointOk (broadcast_chat_everyone msg roomB m) mr := by
  refine ⟨_, refresh_prompt_some _ _ ?_, refresh_output_pointok _ _⟩
  exact broadcast_everyone_hok msg roomB room2 m (roomok_hok hok)

theorem turn_logic_total (team : CodenamesTeam) (line : Option String)
    (m : UserMap) (room : CodenamesRoom) (addr : Nat) (user_name : String)
    (hps : PlayerSome m addr) (hok : RoomOk m room) :
    ∃ m2 room2, turn_logic team line m room addr user_name = some (m2, room2) ∧
      PointOk m m2 ∧ room2.players = room.players := by
  obtain ⟨user, hm, hpu⟩ := hps
  obtain ⟨player, hp⟩ := Option.isSome_iff_exists.mp hpu
  have key : ∀ res, turn_logic team line m room addr user_name = res →
      ∃ m2 room2, res = some (m2, room2) ∧
        PointOk m m2 ∧ room2.players = room.players := by
    intro res hres
    cases line with
    | none => exact ⟨m, room, hres.symm, PointOk.refl m, rfl⟩
    | some line =>
      simp only [turn_logic, hm, hp] at hres
      split at hres
      next h1 =>
        split at hres
        next hbb =>
          split at hres
          next hg =>
            exact ⟨m, end_turn team room, hres.symm, PointOk.refl m,
              (end_turn_fields team room).2.2.2.2.1⟩
          next hg => exact ⟨m, room, hres.symm, PointOk.refl m, rfl⟩
        next hbb =>
          split at hres
          next hb1 =>
            split at hres
            next hfind =>
              exact ⟨_, _, hres.symm,
                PointOk.trans (broadcast_everyone_pointok _ _ _)
                  (broadcast_everyone_pointok _ _ _), rfl⟩
            next card hfind =>
              split at hres
              next hassn => exact ⟨_, _, hres.symm, broadcast_everyone_pointok _ _ _, rfl⟩
              next hassn =>
                cases hct : card.card_type with
                | Assassin => exact absurd hct hassn
                | RedAgent =>
                  obtain ⟨mr, hrfe, hpo⟩ := refresh_total
                    { room with red_score := room.red_score + 1, guesses := room.guesses + 1, board := flip_board (rs_trim (rs_drop line 1)) room.board }
                    { room with guesses := room.guesses + 1 }
                    (user.user_name ++ " Guessed " ++ rs_trim (rs_drop line 1) ++ "\r\n")
                    m hok
                  simp only [hct, hrfe] at hres
                  split at hres
                  next hsw =>
                    exact ⟨mr, _, hres.symm,
                      PointOk.trans (broadcast_everyone_pointok _ _ _) hpo,
                      ((end_turn_fields team _).2.2.2.2.1).trans rfl⟩
                  next hsw =>
                    exact ⟨mr, _, hres.symm,
                      PointOk.trans (broadcast_everyone_pointok _ _ _) hpo, rfl⟩
                | BlueAgent =>
                  obtain ⟨mr, hrfe, hpo⟩ := refresh_total
                    { room with blue_score := room.blue_score + 1, guesses := room.guesses + 1, board := flip_board (rs_trim (rs_drop line 1)) room.board }
                    { room with guesses := room.guesses + 1 }
                    (user.user_name ++ " Guessed " ++ rs_trim (rs_drop line 1) ++ "\r\n")
                    m hok
                  simp only [hct, hrfe] at hres
                  split at hres
                  next hsw =>
                    exact ⟨mr, _, hres.symm,
                      PointOk.trans (broadcast_everyone_pointok _ _ _) hpo,
                      ((end_turn_fields team _).2.2.2.2.1).trans rfl⟩
                  next hsw =>
                    exact ⟨mr, _, hres.symm,
                      PointOk.trans (broadcast_everyone_pointok _ _ _) hpo, rfl⟩
                | Bystander =>
                  obtain ⟨mr, hrfe, hpo⟩ := refresh_total
                    { room with guesses := room.guesses + 1, board := flip_board (rs_trim (rs_drop line 1)) room.board }
                    { room with guesses := room.guesses + 1 }
                    (user.user_name ++ " Guessed " ++ rs_trim (rs_drop line 1) ++ "\r\n")
                    m hok
                  simp only [hct, hrfe] at hres
                  split at hres
                  next hsw =>
                    exact ⟨mr, _, hres.symm,
                      PointOk.trans (broadcast_everyone_pointok _ _ _) hpo,
                      ((end_turn_fields team _).2.2.2.2.1).trans rfl⟩
                  next hsw =>
                    exact ⟨mr, _, hres.symm,
                      PointOk.trans (broadcast_everyone_pointok _ _ _) hpo, rfl⟩
          next hb1 => exact ⟨m, room, hres.symm, PointOk.refl m, rfl⟩
      next h1 =>
        split at hres
        next h2 =>
          split at hres
          next word number hsplit =>
            split at hres
            next gn hparse =>
              exact ⟨_, _, hres.symm, broadcast_everyone_pointok _ _ _, rfl⟩
            next hparse => exact ⟨m, room, hres.symm, PointOk.refl m, rfl⟩
          next hsplit => exact ⟨m, room, hres.symm, PointOk.refl m, rfl⟩
        next h2 => exact ⟨_, room, hres.symm, broadcast_chat_pointok _ _ _ _ _, rfl⟩
  exact key _ rfl

theorem mem_insert_addr {b a : Nat} {l : List Nat} (h : b ∈ insert_addr a l) :
    b = a ∨ b ∈ l := by
  unfold insert_addr at h
  by_cases hc : l.contains a = true
  · rw [if_pos hc] at h
    exact Or.inr h
  · rw [if_neg hc] at h
    rcases List.mem_cons.mp h with h | h
    · exact Or.inl h
    · exact Or.inr h

theorem get_user_state_props (m : UserMap) (addr : Nat) (haddr : AddrOk m) :
    PointOk m (get_user_state m addr).2 ∧
    (get_user_state m addr).2 addr = some (get_user_state m addr).1 ∧
    (get_user_state m addr).1.socket_addr = addr ∧
    AddrOk (get_user_state m addr).2 := by
  cases hma : m addr with
  | some u =>
    simp only [get_user_state, hma]
    exact ⟨PointOk.refl m, trivial, haddr addr u hma, haddr⟩
  | none =>
    simp only [get_user_state, hma]
    have hpo : PointOk m (mupdate m addr
        { prev_prompt := "", state := .Joined, prev_state := .Joined,
          user_name := "default", socket_addr := addr,
          game_room_key := none, player := none }) := by
      refine mupdate_pointok rfl ?_
      rintro ⟨u0, hu0, _⟩
      rw [hma] at hu0
      cases hu0
    refine ⟨hpo, ?_, trivial, AddrOk_of_pointok haddr hpo⟩
    rw [mupdate_apply, if_pos rfl]

theorem init_user_board_analysis (user : User) (rooms : RoomsMap) (fb : Board) :
    (init_user_board user rooms fb).1.player.isSome = true ∧
    (init_user_board user rooms fb).1.socket_addr = user.socket_addr ∧
    (∀ k room, (init_user_board user rooms fb).2.2 = some (k, room) →
      ∀ a ∈ room.players, a = user.socket_addr ∨
        ∃ gr room0, (k, gr) ∈ rooms ∧ gr.impl_room = some room0 ∧ a ∈ room0.players) ∧
    (∀ p ∈ (init_user_board user rooms fb).2.1, p ∈ rooms ∨
      ∃ k room, (init_user_board user rooms fb).2.2 = some (k, room) ∧
        p.2.impl_room = some room) := by
  cases hkey : user.game_room_key with
  | none =>
    simp only [init_user_board, hkey]
    refine ⟨rfl, trivial, ?_, ?_⟩
    · intro k room h
      exact Option.noConfusion h
    · intro p hp
      exact Or.inl hp
  | some k0 =>
    cases hlk : mlookup rooms k0 with
    | none =>
      simp only [init_user_board, hkey, hlk]
      refine ⟨rfl, trivial, ?_, ?_⟩
      · intro k room h
        exact Option.noConfusion h
      · intro p hp
        exact Or.inl hp
    | some gr =>
      cases himpl : gr.impl_room with
      | none =>
        simp only [init_user_board, hkey, hlk, himpl]
        refine ⟨rfl, trivial, ?_, ?_⟩
        · intro k room h
          cases h
          intro a ha
          rcases List.mem_singleton.mp ha with rfl
          exact Or.inl rfl
        · intro p hp
          rcases mem_minsert p hp with h | h
          · exact Or.inl h
          · refine Or.inr ⟨k0, _, rfl, ?_⟩
            rw [h]
      | some room0 =>
        simp only [init_user_board, hkey, hlk, himpl]
        refine ⟨rfl, trivial, ?_, ?_⟩
        · intro k room h
          cases h
          intro a ha
          rcases mem_insert_addr ha with h | h
          · exact Or.inl h
          · exact Or.inr ⟨gr, room0, mlookup_mem hlk, himpl, h⟩
        · intro p hp
          rcases mem_minsert p hp with h | h
          · exact Or.inl h
          · refine Or.inr ⟨k0, _, rfl, ?_⟩
            rw [h]

theorem RoomOk_players_eq {m2 : UserMap} {room1 room2 : CodenamesRoom}
    (h : RoomOk m2 room1) (he : room2.players = room1.players) : RoomOk m2 room2 :=
  fun a ha => h a (he ▸ ha)

theorem RoomsOkE_set_room {m2 : UserMap} {rooms1 : RoomsMap} {k : Int}
    {roomNew : CodenamesRoom}
    (h1 : RoomsOkE m2 rooms1) (h2 : RoomOk m2 roomNew) :
    RoomsOkE m2 (set_room rooms1 k roomNew) := by
  intro p hp room2 himpl2
  rcases mem_set_room p hp with h | h
  · exact h1 p h room2 himpl2
  · rw [h] at himpl2
    cases himpl2
    exact h2

theorem RoomsOkE_mremove {m2 : UserMap} {rooms1 : RoomsMap} {k : Int}
    (h : RoomsOkE m2 rooms1) : RoomsOkE m2 (mremove rooms1 k) :=
  fun p hp room2 himpl2 => h p (mem_mremove p hp) room2 himpl2

theorem codenames_logic_total (addr : Nat) (m : UserMap) (rooms : RoomsMap)
    (line : Option String) (fb : Board)
    (haddr : AddrOk m) (hrooms : RoomsOkE m rooms) :
    ∃ m2 rooms2, codenames_logic addr m rooms line fb = some (m2, rooms2) ∧
      AddrOk m2 ∧ RoomsOkE m2 rooms2 := by
  obtain ⟨hpo0, hm0, hsock0, haddr0⟩ := get_user_state_props m addr haddr
  rcases hgu : get_user_state m addr with ⟨u0, m0⟩
  simp only [hgu] at hpo0 hm0 hsock0 haddr0
  obtain ⟨hips, hisock, hroommem, hrooms1mem⟩ := init_user_board_analysis u0 rooms fb
  rcases hini : init_user_board u0 rooms fb with ⟨u1, rooms1, opt⟩
  simp only [hini] at hips hisock hroommem hrooms1mem
  have hsock1 : u1.socket_addr = addr := hisock.trans hsock0
  have hpo1 : PointOk m0 (mupdate m0 addr u1) :=
    mupdate_pointok hsock1 (fun _ => hips)
  have hm1a : mupdate m0 addr u1 addr = some u1 := by
    rw [mupdate_apply, if_pos rfl]
  have hps1 : PlayerSome (mupdate m0 addr u1) addr := ⟨u1, hm1a, hips⟩
  have haddr1 : AddrOk (mupdate m0 addr u1) := AddrOk_of_pointok haddr0 hpo1
  have hpo01 : PointOk m (mupdate m0 addr u1) := PointOk.trans hpo0 hpo1
  have hpo2 : ∀ p2 : CodenamesPlayer, PointOk (mupdate m0 addr u1)
      (mupdate (mupdate m0 addr u1) addr { u1 with player := some p2 }) :=
    fun p2 => mupdate_pointok hsock1 (fun _ => rfl)
  have hRoomOk1 : ∀ k room, opt = some (k, room) →
      RoomOk (mupdate m0 addr u1) room := by
    intro k room hopt a ha
    rcases hroommem k room hopt a ha with h | ⟨gr, room0, hmemr, himplr, ha0⟩
    · rw [h, hsock0]
      exact hps1
    · exact (hpo01 a).1 (hrooms (k, gr) hmemr room0 himplr a ha0)
  have hrooms1E : RoomsOkE (mupdate m0 addr u1) rooms1 := by
    intro p hp room2 himpl2
    rcases hrooms1mem p hp with h | ⟨k, room, hopt, himplp⟩
    · exact RoomOk_of_pointok (hrooms p h room2 himpl2) hpo01
    · rw [himplp] at himpl2
      cases himpl2
      exact hRoomOk1 k room2 hopt
  have key : ∀ res, codenames_logic addr m rooms line fb = res →
      ∃ m2 rooms2, res = some (m2, rooms2) ∧ AddrOk m2 ∧ RoomsOkE m2 rooms2 := by
    intro res hres
    simp only [codenames_logic, hgu, hini] at hres
    cases opt with
    | none => exact ⟨_, _, hres.symm, haddr1, hrooms1E⟩
    | some kr =>
      rcases kr with ⟨k, room⟩
      have hrok : RoomOk (mupdate m0 addr u1) room := hRoomOk1 k room rfl
      cases hp1 : u1.player with
      | none =>
        rw [hp1] at hips
        cases hips
      | some player =>
        simp only [hp1] at hres
        split at hres
        next hst =>
          split at hres
          next hline => exact ⟨_, _, hres.symm, haddr1, hrooms1E⟩
          next l hline =>
            split at hres
            next hstart =>
              have hall : ∀ a ∈ room.players, ∃ u, mupdate m0 addr u1 a = some u :=
                fun a ha => (hrok a ha).imp (fun u hu => hu.1)
              obtain ⟨vb, hvb, _⟩ := verify_room_spec room (mupdate m0 addr u1) hall
              split at hres
              next hvr =>
                rw [hvr] at hvb
                cases hvb
              next hvr =>
                refine ⟨_, _, hres.symm,
                  AddrOk_of_pointok haddr1 (broadcast_everyone_pointok _ _ _), ?_⟩
                refine RoomsOkE_set_room
                  (RoomsOkE_of_pointok hrooms1E (broadcast_everyone_pointok _ _ _)) ?_
                exact fun a ha =>
                  RoomOk_of_pointok hrok (broadcast_everyone_pointok _ _ _) a ha
              next hvr =>
                exact ⟨_, _, hres.symm,
                  AddrOk_of_pointok haddr1 (broadcast_everyone_pointok _ _ _),
                  RoomsOkE_of_pointok hrooms1E (broadcast_everyone_pointok _ _ _)⟩
            next hstart =>
              split at hres
              next hcmd =>
                exact ⟨_, _, hres.symm, AddrOk_of_pointok haddr1 (hpo2 _),
                  RoomsOkE_of_pointok hrooms1E (hpo2 _)⟩
              next hcmd =>
                split at hres
                next hcmd2 =>
                  exact ⟨_, _, hres.symm, AddrOk_of_pointok haddr1 (hpo2 _),
                    RoomsOkE_of_pointok hrooms1E (hpo2 _)⟩
                next hcmd2 =>
                  split at hres
                  next hcmd3 =>
                    exact ⟨_, _, hres.symm, AddrOk_of_pointok haddr1 (hpo2 _),
                      RoomsOkE_of_pointok hrooms1E (hpo2 _)⟩
                  next hcmd3 =>
                    split at hres
                    next hcmd4 =>
                      exact ⟨_, _, hres.symm, AddrOk_of_pointok haddr1 (hpo2 _),
                        RoomsOkE_of_pointok hrooms1E (hpo2 _)⟩
                    next hcmd4 =>
                      split at hres
                      next hcmd5 =>
                        exact ⟨_, _, hres.symm, AddrOk_of_pointok haddr1 (hpo2 _),
                          RoomsOkE_of_pointok hrooms1E (hpo2 _)⟩
                      next hcmd5 =>
                        exact ⟨_, _, hres.symm,
                          AddrOk_of_pointok haddr1 (broadcast_chat_pointok _ _ _ _ _),
                          RoomsOkE_of_pointok hrooms1E (broadcast_chat_pointok _ _ _ _ _)⟩
        next hst =>
          obtain ⟨m2, room2, htl, hpo3, hpl2⟩ :=
            turn_logic_total .Blue line (mupdate m0 addr u1) room addr u0.user_name hps1 hrok
          simp only [htl] at hres
          exact ⟨_, _, hres.symm, AddrOk_of_pointok haddr1 hpo3,
            RoomsOkE_set_room (RoomsOkE_of_pointok hrooms1E hpo3)
              (RoomOk_players_eq (RoomOk_of_pointok hrok hpo3) hpl2)⟩
        next hst =>
          obtain ⟨m2, room2, htl, hpo3, hpl2⟩ :=
            turn_logic_total .Red line (mupdate m0 addr u1) room addr u0.user_name hps1 hrok
          simp only [htl] at hres
          exact ⟨_, _, hres.symm, AddrOk_of_pointok haddr1 hpo3,
            RoomsOkE_set_room (RoomsOkE_of_pointok hrooms1E hpo3)
              (RoomOk_players_eq (RoomOk_of_pointok hrok hpo3) hpl2)⟩
        next hst =>
          split at hres
          next rk hk =>
            exact ⟨_, _, hres.symm, haddr1, RoomsOkE_mremove hrooms1E⟩
          next hk =>
            exact ⟨_, _, hres.symm, haddr1, hrooms1E⟩
  exact key _ rfl

theorem codenames_prompt_total (addr : Nat) (m : UserMap) (rooms : RoomsMap)
    (fb : Board) (haddr : AddrOk m) (hrooms : RoomsOkE m rooms) :
    ∃ r, codenames_prompt addr m rooms fb = some r ∧
      AddrOk r.2.1 ∧ RoomsOkE r.2.1 r.2.2 := by
  obtain ⟨hpo0, hm0, hsock0, haddr0⟩ := get_user_state_props m addr haddr
  rcases hgu : get_user_state m addr with ⟨u0, m0⟩
  simp only [hgu] at hpo0 hm0 hsock0 haddr0
  have hrooms0 : RoomsOkE m0 rooms := RoomsOkE_of_pointok hrooms hpo0
  cases hup : u0.player with
  | some p0 =>
    have hpod : PointOk m0 (mupdate m0 addr { u0 with player := some { p0 with chat_queue := [] } }) :=
      mupdate_pointok hsock0 (fun _ => rfl)
    obtain ⟨hips, hisock, hroommem, hrooms1mem⟩ :=
      init_user_board_analysis { u0 with player := some { p0 with chat_queue := [] } } rooms fb
    rcases hini : init_user_board { u0 with player := some { p0 with chat_queue := [] } } rooms fb with ⟨u1, rooms1, opt⟩
    simp only [hini] at hips hisock hroommem hrooms1mem
    have hsock1 : u1.socket_addr = addr := hisock.trans hsock0
    have hpo1 : PointOk (mupdate m0 addr { u0 with player := some { p0 with chat_queue := [] } }) (mupdate (mupdate m0 addr { u0 with player := some { p0 with chat_queue := [] } }) addr u1) :=
      mupdate_pointok hsock1 (fun _ => hips)
    have hpo01 : PointOk m0 (mupdate (mupdate m0 addr { u0 with player := some { p0 with chat_queue := [] } }) addr u1) :=
      PointOk.trans hpod hpo1
    have hm1a : mupdate (mupdate m0 addr { u0 with player := some { p0 with chat_queue := [] } }) addr u1 addr = some u1 := by
      rw [mupdate_apply, if_pos rfl]
    have hps1 : PlayerSome (mupdate (mupdate m0 addr { u0 with player := some { p0 with chat_queue := [] } }) addr u1) addr := ⟨u1, hm1a, hips⟩
    have haddr1 : AddrOk (mupdate (mupdate m0 addr { u0 with player := some { p0 with chat_queue := [] } }) addr u1) :=
      AddrOk_of_pointok haddr0 hpo01
    have hpo2 : ∀ p2 : CodenamesPlayer, PointOk (mupdate (mupdate m0 addr { u0 with player := some { p0 with chat_queue := [] } }) addr u1) (mupdate (mupdate (mupdate m0 addr { u0 with player := some { p0 with chat_queue := [] } }) addr u1) addr { u1 with player := some p2 }) :=
      fun p2 => mupdate_pointok hsock1 (fun _ => rfl)
    have hRoomOk1 : ∀ k room, opt = some (k, room) →
        RoomOk (mupdate (mupdate m0 addr { u0 with player := some { p0 with chat_queue := [] } }) addr u1) room := by
      intro k room hopt a ha
      rcases hroommem k room hopt a ha with h | ⟨gr, room0, hmemr, himplr, ha0⟩
      · have ha2 : a = addr := h.trans hsock0
        rw [ha2]
        exact hps1
      · exact (hpo01 a).1 (hrooms0 (k, gr) hmemr room0 himplr a ha0)
    have hrooms1E : RoomsOkE (mupdate (mupdate m0 addr { u0 with player := some { p0 with chat_queue := [] } }) addr u1) rooms1 := by
      intro p hp room2 himpl2
      rcases hrooms1mem p hp with h | ⟨k, room, hopt, himplp⟩
      · exact RoomOk_of_pointok (hrooms0 p h room2 himpl2) hpo01
      · rw [himplp] at himpl2
        cases himpl2
        exact hRoomOk1 k room2 hopt
    have key : ∀ res, codenames_prompt addr m rooms fb = res →
        ∃ r, res = some r ∧ AddrOk r.2.1 ∧ RoomsOkE r.2.1 r.2.2 := by
      intro res hres
      simp only [codenames_prompt, hgu, hup, hini] at hres
      cases opt with
      | none => exact ⟨_, hres.symm, haddr1, hrooms1E⟩
      | some kr =>
        rcases kr with ⟨k, room⟩
        cases hp1 : u1.player with
        | none =>
          rw [hp1] at hips
          cases hips
        | some player =>
          simp only [hp1] at hres
          split at hres
          next hsp =>
            exact ⟨_, hres.symm, AddrOk_of_pointok haddr1 (hpo2 _),
              RoomsOkE_of_pointok hrooms1E (hpo2 _)⟩
          next hsp =>
            exact ⟨_, hres.symm, AddrOk_of_pointok haddr1 (hpo2 _),
              RoomsOkE_of_pointok hrooms1E (hpo2 _)⟩
    exact key _ rfl
  | none =>
    have hpod : PointOk m0 (mupdate m0 addr u0) :=
      mupdate_pointok hsock0 (fun hps => by
        obtain ⟨u, hu, hx⟩ := hps
        rw [hm0] at hu
        cases hu
        exact hx)
    obtain ⟨hips, hisock, hroommem, hrooms1mem⟩ := init_user_board_analysis u0 rooms fb
    rcases hini : init_user_board u0 rooms fb with ⟨u1, rooms1, opt⟩
    simp only [hini] at hips hisock hroommem hrooms1mem
    have hsock1 : u1.socket_addr = addr := hisock.trans hsock0
    have hpo1 : PointOk (mupdate m0 addr u0) (mupdate (mupdate m0 addr u0) addr u1) :=
      mupdate_pointok hsock1 (fun _ => hips)
    have hpo01 : PointOk m0 (mupdate (mupdate m0 addr u0) addr u1) :=
      PointOk.trans hpod hpo1
    have hm1a : mupdate (mupdate m0 addr u0) addr u1 addr = some u1 := by
      rw [mupdate_apply, if_pos rfl]
    have hps1 : PlayerSome (mupdate (mupdate m0 addr u0) addr u1) addr := ⟨u1, hm1a, hips⟩
    have haddr1 : AddrOk (mupdate (mupdate m0 addr u0) addr u1) :=
      AddrOk_of_pointok haddr0 hpo01
    have hpo2 : ∀ p2 : CodenamesPlayer, PointOk (mupdate (mupdate m0 addr u0) addr u1) (mupdate (mupdate (mupdate m0 addr u0) addr u1) addr { u1 with player := some p2 }) :=
      fun p2 => mupdate_pointok hsock1 (fun _ => rfl)
    have hRoomOk1 : ∀ k room, opt = some (k, room) →
        RoomOk (mupdate (mupdate m0 addr u0) addr u1) room := by
      intro k room hopt a ha
      rcases hroommem k room hopt a ha with h | ⟨gr, room0, hmemr, himplr, ha0⟩
      · have ha2 : a = addr := h.trans hsock0
        rw [ha2]
        exact hps1
      · exact (hpo01 a).1 (hrooms0 (k, gr) hmemr room0 himplr a ha0)
    have hrooms1E : RoomsOkE (mupdate (mupdate m0 addr u0) addr u1) rooms1 := by
      intro p hp room2 himpl2
      rcases hrooms1mem p hp with h | ⟨k, room, hopt, himplp⟩
      · exact RoomOk_of_pointok (hrooms0 p h room2 himpl2) hpo01
      · rw [himplp] at himpl2
        cases himpl2
        exact hRoomOk1 k room2 hopt
    have key : ∀ res, codenames_prompt addr m rooms fb = res →
        ∃ r, res = some r ∧ AddrOk r.2.1 ∧ RoomsOkE r.2.1 r.2.2 := by
      intro res hres
      simp only [codenames_prompt, hgu, hup, hini] at hres
      cases opt with
      | none => exact ⟨_, hres.symm, haddr1, hrooms1E⟩
      | some kr =>
        rcases kr with ⟨k, room⟩
        cases hp1 : u1.player with
        | none =>
          rw [hp1] at hips
          cases hips
        | some player =>
          simp only [hp1] at hres
          split at hres
          next hsp =>
            exact ⟨_, hres.symm, AddrOk_of_pointok haddr1 (hpo2 _),
              RoomsOkE_of_pointok hrooms1E (hpo2 _)⟩
          next hsp =>
            exact ⟨_, hres.symm, AddrOk_of_pointok haddr1 (hpo2 _),
              RoomsOkE_of_pointok hrooms1E (hpo2 _)⟩
    exact key _ rfl

theorem disconnect_room_total (addr : Nat) (gr : GameRoom) (m : UserMap)
    (hok : ∀ room, gr.impl_room = some room → RoomOk m room) :
    ∃ gr2 m2, disconnect_room addr gr m = some (gr2, m2) ∧ PointOk m m2 ∧
      (∀ room2, gr2.impl_room = some room2 →
        (∃ room, gr.impl_room = some room ∧
          (∀ a ∈ room2.players, a ∈ room.players)) ∧ addr ∉ room2.players) := by
  cases himpl : gr.impl_room with
  | none =>
    refine ⟨gr, m, ?_, PointOk.refl m, ?_⟩
    · simp only [disconnect_room, himpl]
    · intro room2 h2
      rw [himpl] at h2
      cases h2
  | some room =>
    by_cases hc : room.players.contains addr = true
    · have hmem : addr ∈ room.players := List.mem_of_elem_eq_true hc
      obtain ⟨u, hu, _⟩ := hok room himpl addr hmem
      refine ⟨{ gr with impl_room := some { room with players := room.players.filter (· ≠ addr) } },
        broadcast_chat_everyone (u.user_name ++ " has left the game!") room m, ?_, broadcast_everyone_pointok _ _ _, ?_⟩
      · simp only [disconnect_room, himpl, hc, if_true, hu]
      · intro room2 h2
        cases h2
        refine ⟨⟨room, rfl, fun a ha => List.mem_of_mem_filter ha⟩, ?_⟩
        intro hin
        have := List.of_mem_filter hin
        simp at this
    · refine ⟨gr, m, ?_, PointOk.refl m, ?_⟩
      · simp only [disconnect_room, himpl, hc, Bool.false_eq_true, if_false]
      · intro room2 h2
        rw [himpl] at h2
        cases h2
        refine ⟨⟨room, rfl, fun a ha => ha⟩, ?_⟩
        intro hin
        exact hc (List.elem_eq_true_of_mem hin)

theorem codenames_disconnect_total (addr : Nat) (rooms : RoomsMap) (m : UserMap)
    (hrooms : RoomsOkE m rooms) :
    ∃ rooms2 m2, codenames_disconnect addr rooms m = some (rooms2, m2) ∧
      PointOk m m2 ∧ RoomsOkE m2 rooms2 ∧
      (∀ p ∈ rooms2, ∀ room2, p.2.impl_room = some room2 → addr ∉ room2.players) := by
  induction rooms generalizing m with
  | nil =>
    refine ⟨[], m, rfl, PointOk.refl m, ?_, ?_⟩
    · intro p hp
      cases hp
    · intro p hp
      cases hp
  | cons q rest ih =>
    rcases q with ⟨k, gr⟩
    obtain ⟨gr2, m1, hdr, hpo1, hsub⟩ := disconnect_room_total addr gr m
      (fun room himpl => hrooms (k, gr) (List.mem_cons_self _ _) room himpl)
    have hrest1 : RoomsOkE m1 rest := by
      intro p hp room himpl
      exact RoomOk_of_pointok (hrooms p (List.mem_cons_of_mem _ hp) room himpl) hpo1
    obtain ⟨rest2, m2, hcd, hpo2, hrestE, hrestA⟩ := ih m1 hrest1
    refine ⟨(k, gr2) :: rest2, m2, ?_, PointOk.trans hpo1 hpo2, ?_, ?_⟩
    · simp only [codenames_disconnect, hdr, hcd]
    · intro p hp room2 himpl2
      rcases List.mem_cons.mp hp with rfl | hp2
      · obtain ⟨⟨room, himpl, hsubset⟩, _⟩ := hsub room2 himpl2
        intro a ha
        exact (hpo2 a).1 (RoomOk_of_pointok
          (hrooms (k, gr) (List.mem_cons_self _ _) room himpl) hpo1 a (hsubset a ha))
      · exact hrestE p hp2 room2 himpl2
    · intro p hp room2 himpl2
      rcases List.mem_cons.mp hp with rfl | hp2
      · exact (hsub room2 himpl2).2
      · exact hrestA p hp2 room2 himpl2

theorem lobby_selection_props (user : User) (rooms : RoomsMap) (line : Option String) :
    (lobby_selection_logic user rooms line).1.socket_addr = user.socket_addr ∧
    (lobby_selection_logic user rooms line).1.player.isSome = user.player.isSome ∧
    (∀ p ∈ (lobby_selection_logic user rooms line).2, p ∈ rooms ∨ p.2.impl_room = none) := by
  cases line with
  | none => exact ⟨rfl, rfl, fun p hp => Or.inl hp⟩
  | some l =>
    cases hpi : rs_parse_i32 (rs_trim l) with
    | none =>
      simp only [lobby_selection_logic, hpi]
      exact ⟨trivial, trivial, fun p hp => Or.inl hp⟩
    | some idx =>
      by_cases hz : idx = 0
      · simp only [lobby_selection_logic, hpi, hz, if_true, reduceIte]
        cases hlk : mlookup (minsert rooms (find_empty_slot rooms) { name := user.user_name ++ "'s Room", impl_room := none }) (find_empty_slot rooms) with
        | none =>
          simp only [hlk]
          refine ⟨trivial, trivial, fun p hp => ?_⟩
          rcases mem_minsert p hp with h | h
          · exact Or.inl h
          · rw [h]
            exact Or.inr rfl
        | some gr =>
          simp only [hlk]
          refine ⟨trivial, trivial, fun p hp => ?_⟩
          rcases mem_minsert p hp with h | h
          · exact Or.inl h
          · rw [h]
            exact Or.inr rfl
      · simp only [lobby_selection_logic, hpi, hz, if_false, Bool.false_eq_true, reduceIte]
        cases hlk : mlookup rooms idx with
        | none =>
          simp only [hlk]
          exact ⟨trivial, trivial, fun p hp => Or.inl hp⟩
        | some gr =>
          simp only [hlk]
          exact ⟨trivial, trivial, fun p hp => Or.inl hp⟩

theorem finish_inv (addr : Nat) (st0 : ServerState) (mr : UserMap)
    (rooms2 : RoomsMap) (haddr2 : AddrOk mr) (hrooms2 : RoomsOkE mr rooms2) :
    Inv { user_state := mupdate (get_user_state mr addr).2 addr { (get_user_state mr addr).1 with prev_state := st0 }, game_rooms := rooms2 } ∧
    Inv { user_state := (get_user_state mr addr).2, game_rooms := rooms2 } := by
  obtain ⟨hpo, hm2, hsock, haddr3⟩ := get_user_state_props mr addr haddr2
  have hkeep : PlayerSome (get_user_state mr addr).2 addr →
      ({ (get_user_state mr addr).1 with prev_state := st0 } : User).player.isSome = true := by
    rintro ⟨u, hu, hx⟩
    rw [hm2] at hu
    cases hu
    exact hx
  have hpo2 : PointOk (get_user_state mr addr).2
      (mupdate (get_user_state mr addr).2 addr { (get_user_state mr addr).1 with prev_state := st0 }) :=
    mupdate_pointok hsock hkeep
  refine ⟨⟨AddrOk_of_pointok haddr3 hpo2, ?_⟩, haddr3, RoomsOkE_of_pointok hrooms2 hpo⟩
  exact RoomsOkE_of_pointok (RoomsOkE_of_pointok hrooms2 hpo) hpo2

theorem client_logic_inv (addr : Nat) (s : GameServerState) (line : Option String)
    (fb : Board) (hinv : Inv s) :
    ∃ s2, client_logic addr s line fb = some s2 ∧ Inv s2 := by
  obtain ⟨haddr, hrooms⟩ := hinv
  obtain ⟨hpo0, hm0, hsock0, haddr0⟩ := get_user_state_props s.user_state addr haddr
  rcases hgu : get_user_state s.user_state addr with ⟨u0, m0⟩
  simp only [hgu] at hpo0 hm0 hsock0 haddr0
  have hrooms0 : RoomsOkE m0 s.game_rooms := RoomsOkE_of_pointok hrooms hpo0
  have hkeep0 : PlayerSome m0 addr → u0.player.isSome = true := by
    rintro ⟨u, hu, hx⟩
    rw [hm0] at hu
    cases hu
    exact hx
  obtain ⟨mc, roomsc, hcl, haddrc, hroomsc⟩ :=
    codenames_logic_total addr m0 s.game_rooms line fb haddr0 hrooms0
  have key : ∀ res, client_logic addr s line fb = res →
      ∃ s2, res = some s2 ∧ Inv s2 := by
    intro res hres
    simp only [client_logic, hgu] at hres
    split at hres
    next hst =>
      exfalso
      rw [hcl] at hst
      repeat' split at hst
      all_goals exact Option.noConfusion hst
    next mr rooms2 hst =>
      rw [hcl] at hst
      split at hst
      next hstate =>
        cases hst
        have hpoX : PointOk m0 (mupdate m0 addr { u0 with state := ServerState.UsernameEntry }) :=
          mupdate_pointok hsock0 (fun h => hkeep0 h)
        obtain ⟨hf1, hf2⟩ := finish_inv addr u0.state
          (mupdate m0 addr { u0 with state := ServerState.UsernameEntry }) s.game_rooms
          (AddrOk_of_pointok haddr0 hpoX) (RoomsOkE_of_pointok hrooms0 hpoX)
        rcases hgu2 : get_user_state (mupdate m0 addr { u0 with state := ServerState.UsernameEntry }) addr with ⟨u2, m2⟩
        simp only [hgu2] at hres hf1 hf2
        split at hres
        next hne => exact ⟨_, hres.symm, hf1⟩
        next hne => exact ⟨_, hres.symm, hf2⟩
      next hstate =>
        split at hst
        next =>
          cases hst
          obtain ⟨hf1, hf2⟩ := finish_inv addr u0.state m0 s.game_rooms haddr0 hrooms0
          rcases hgu2 : get_user_state m0 addr with ⟨u2, m2⟩
          simp only [hgu2] at hres hf1 hf2
          split at hres
          next hne => exact ⟨_, hres.symm, hf1⟩
          next hne => exact ⟨_, hres.symm, hf2⟩
        next l =>
          split at hst
          next hlen =>
            cases hst
            have hpoX : PointOk m0 (mupdate m0 addr { u0 with user_name := rs_trim l, state := ServerState.LobbySelection }) :=
              mupdate_pointok hsock0 (fun h => hkeep0 h)
            obtain ⟨hf1, hf2⟩ := finish_inv addr u0.state
              (mupdate m0 addr { u0 with user_name := rs_trim l, state := ServerState.LobbySelection }) s.game_rooms
              (AddrOk_of_pointok haddr0 hpoX) (RoomsOkE_of_pointok hrooms0 hpoX)
            rcases hgu2 : get_user_state (mupdate m0 addr { u0 with user_name := rs_trim l, state := ServerState.LobbySelection }) addr with ⟨u2, m2⟩
            simp only [hgu2] at hres hf1 hf2
            split at hres
            next hne => exact ⟨_, hres.symm, hf1⟩
            next hne => exact ⟨_, hres.symm, hf2⟩
          next hlen =>
            cases hst
            have hpoX : PointOk m0 (mupdate m0 addr { u0 with state := ServerState.InvalidInput }) :=
              mupdate_pointok hsock0 (fun h => hkeep0 h)
            obtain ⟨hf1, hf2⟩ := finish_inv addr u0.state
              (mupdate m0 addr { u0 with state := ServerState.InvalidInput }) s.game_rooms
              (AddrOk_of_pointok haddr0 hpoX) (RoomsOkE_of_pointok hrooms0 hpoX)
            rcases hgu2 : get_user_state (mupdate m0 addr { u0 with state := ServerState.InvalidInput }) addr with ⟨u2, m2⟩
            simp only [hgu2] at hres hf1 hf2
            split at hres
            next hne => exact ⟨_, hres.symm, hf1⟩
            next hne => exact ⟨_, hres.symm, hf2⟩
      next hstate =>
        cases hst
        obtain ⟨hls, hlp, hlr⟩ := lobby_selection_props u0 s.game_rooms line
        rcases hll : lobby_selection_logic u0 s.game_rooms line with ⟨uL, roomsL⟩
        simp only [hll] at hres hls hlp hlr
        have hpoX : PointOk m0 (mupdate m0 addr uL) :=
          mupdate_pointok (hls.trans hsock0) (fun h => hlp.trans (hkeep0 h))
        have hroomsL : RoomsOkE (mupdate m0 addr uL) roomsL := by
          intro p hp room himpl
          rcases hlr p hp with h | h
          · exact RoomOk_of_pointok (hrooms0 p h room himpl) hpoX
          · rw [h] at himpl
            cases himpl
        obtain ⟨hf1, hf2⟩ := finish_inv addr u0.state (mupdate m0 addr uL) roomsL
          (AddrOk_of_pointok haddr0 hpoX) hroomsL
        rcases hgu2 : get_user_state (mupdate m0 addr uL) addr with ⟨u2, m2⟩
        simp only [hgu2] at hres hf1 hf2
        split at hres
        next hne => exact ⟨_, hres.symm, hf1⟩
        next hne => exact ⟨_, hres.symm, hf2⟩
      next hstate =>
        cases hst
        have hpoX : PointOk m0 (mupdate m0 addr { u0 with state := u0.prev_state }) :=
          mupdate_pointok hsock0 (fun h => hkeep0 h)
        obtain ⟨hf1, hf2⟩ := finish_inv addr u0.state
          (mupdate m0 addr { u0 with state := u0.prev_state }) s.game_rooms
          (AddrOk_of_pointok haddr0 hpoX) (RoomsOkE_of_pointok hrooms0 hpoX)
        rcases hgu2 : get_user_state (mupdate m0 addr { u0 with state := u0.prev_state }) addr with ⟨u2, m2⟩
        simp only [hgu2] at hres hf1 hf2
        split at hres
        next hne => exact ⟨_, hres.symm, hf1⟩
        next hne => exact ⟨_, hres.symm, hf2⟩
      next hstate =>
        cases hst
        obtain ⟨hf1, hf2⟩ := finish_inv addr u0.state m0 s.game_rooms haddr0 hrooms0
        rcases hgu2 : get_user_state m0 addr with ⟨u2, m2⟩
        simp only [hgu2] at hres hf1 hf2
        split at hres
        next hne => exact ⟨_, hres.symm, hf1⟩
        next hne => exact ⟨_, hres.symm, hf2⟩
      next hstate =>
        cases hst
        obtain ⟨hf1, hf2⟩ := finish_inv addr u0.state mc roomsc haddrc hroomsc
        rcases hgu2 : get_user_state mc addr with ⟨u2, m2⟩
        simp only [hgu2] at hres hf1 hf2
        split at hres
        next hne => exact ⟨_, hres.symm, hf1⟩
        next hne => exact ⟨_, hres.symm, hf2⟩
  exact key _ rfl

theorem get_client_prompt_inv (addr : Nat) (s : GameServerState) (fb : Board)
    (hinv : Inv s) :
    ∃ r, get_client_prompt addr s fb = some r ∧ Inv r.2 := by
  obtain ⟨haddr, hrooms⟩ := hinv
  obtain ⟨hpo0, hm0, hsock0, haddr0⟩ := get_user_state_props s.user_state addr haddr
  rcases hgu : get_user_state s.user_state addr with ⟨u0, m0⟩
  simp only [hgu] at hpo0 hm0 hsock0 haddr0
  have hrooms0 : RoomsOkE m0 s.game_rooms := RoomsOkE_of_pointok hrooms hpo0
  obtain ⟨rp, hcp, haddrp, hroomsp⟩ :=
    codenames_prompt_total addr m0 s.game_rooms fb haddr0 hrooms0
  rcases rp with ⟨out, mp, rooms2⟩
  have key : ∀ res, get_client_prompt addr s fb = res →
      ∃ r, res = some r ∧ Inv r.2 := by
    intro res hres
    simp only [get_client_prompt, hgu] at hres
    split at hres
    next hst => exact ⟨_, hres.symm, haddr0, hrooms0⟩
    next hst => exact ⟨_, hres.symm, haddr0, hrooms0⟩
    next hst => exact ⟨_, hres.symm, haddr0, hrooms0⟩
    next hst => exact ⟨_, hres.symm, haddr0, hrooms0⟩
    next hst => exact ⟨_, hres.symm, haddr0, hrooms0⟩
    next hst =>
      simp only [hcp] at hres
      exact ⟨_, hres.symm, haddrp, hroomsp⟩
  exact key _ rfl

theorem client_disconnect_inv (addr : Nat) (s : GameServerState) (hinv : Inv s) :
    ∃ s2, client_disconnect addr s = some s2 ∧ Inv s2 := by
  obtain ⟨haddr, hrooms⟩ := hinv
  obtain ⟨rooms2, m2, hcd, hpo, hroomsE, hnoaddr⟩ :=
    codenames_disconnect_total addr s.game_rooms s.user_state hrooms
  have haddr2 : AddrOk m2 := AddrOk_of_pointok haddr hpo
  refine ⟨{ user_state := fun a => if a = addr then none else m2 a, game_rooms := rooms2 }, ?_, ?_, ?_⟩
  · simp only [client_disconnect, hcd]
  · intro a u hu
    by_cases ha : a = addr
    · simp only [ha, reduceIte] at hu
      exact Option.noConfusion hu
    · simp only [if_neg ha] at hu
      exact haddr2 a u hu
  · intro p hp room himpl a hain
    have hane : a ≠ addr := fun he => hnoaddr p hp room himpl (he ▸ hain)
    obtain ⟨u, hu, hx⟩ := hroomsE p hp room himpl a hain
    refine ⟨u, ?_, hx⟩
    simp only [if_neg hane]
    exact hu

theorem set_prev_prompt_inv (addr : Nat) (p : String) (s : GameServerState)
    (hinv : Inv s) : Inv (set_prev_prompt addr p s) := by
  obtain ⟨haddr, hrooms⟩ := hinv
  obtain ⟨hpo0, hm0, hsock0, haddr0⟩ := get_user_state_props s.user_state addr haddr
  rcases hgu : get_user_state s.user_state addr with ⟨u0, m0⟩
  simp only [hgu] at hpo0 hm0 hsock0 haddr0
  have hkeep0 : PlayerSome m0 addr →
      ({ u0 with prev_prompt := p } : User).player.isSome = true := by
    rintro ⟨u, hu, hx⟩
    rw [hm0] at hu
    cases hu
    exact hx
  have hpoX : PointOk m0 (mupdate m0 addr { u0 with prev_prompt := p }) :=
    mupdate_pointok hsock0 hkeep0
  have heq : set_prev_prompt addr p s =
      { user_state := mupdate m0 addr { u0 with prev_prompt := p },
        game_rooms := s.game_rooms } := by
    simp only [set_prev_prompt, hgu]
  rw [heq]
  exact ⟨AddrOk_of_pointok haddr0 hpoX,
    RoomsOkE_of_pointok (RoomsOkE_of_pointok hrooms hpo0) hpoX⟩

theorem Inv_init : Inv init_state :=
  ⟨fun _ u h => Option.noConfusion h, fun q hq => absurd hq (List.not_mem_nil q)⟩

/-- C10: in every reachable server state the global safety invariant holds —
session keys equal socket addresses, and every socket address held in any live
room's player set is a key of the session map with an overlay present — and
therefore none of the three core operations panics on any attacker-controlled
input: `client_logic` (apply-input, covering the `unwrap`s of `verify_room`
and `turn_logic`), `get_client_prompt` (produce-prompt) and
`client_disconnect` (the disconnect hook) all return `some`. -/
theorem C10_no_panic_reachable (s : GameServerState) (hs : ReachableState s) :
    Inv s ∧
    (∀ addr line fb, (client_logic addr s line fb).isSome = true) ∧
    (∀ addr fb, (get_client_prompt addr s fb).isSome = true) ∧
    (∀ addr, (client_disconnect addr s).isSome = true) := by
  have hinv : Inv s := by
    induction hs with
    | init => exact Inv_init
    | step hprev hstep ih =>
      cases hstep with
      | logic addr line fb _ _ heq =>
        obtain ⟨s2, h2, hi⟩ := client_logic_inv addr _ line fb ih
        rw [heq] at h2
        cases h2
        exact hi
      | prompt addr fb _ _ out heq =>
        obtain ⟨r, h2, hi⟩ := get_client_prompt_inv addr _ fb ih
        rw [heq] at h2
        cases h2
        exact hi
      | bookkeeping addr p _ => exact set_prev_prompt_inv addr p _ ih
      | disconnect addr _ _ heq =>
        obtain ⟨s2, h2, hi⟩ := client_disconnect_inv addr _ ih
        rw [heq] at h2
        cases h2
        exact hi
  refine ⟨hinv, ?_, ?_, ?_⟩
  · intro addr line fb
    obtain ⟨s2, h2, _⟩ := client_logic_inv addr s line fb hinv
    rw [h2]
    rfl
  · intro addr fb
    obtain ⟨r, h2, _⟩ := get_client_prompt_inv addr s fb hinv
    rw [h2]
    rfl
  · intro addr
    obtain ⟨s2, h2, _⟩ := client_disconnect_inv addr s hinv
    rw [h2]
    rfl

/-- Closed witness for C10: at the freshly started server, the invariant holds
and one concrete drive of each core operation returns `some`. -/
theorem C10_witness :
    Inv init_state ∧
    (client_logic 0 init_state (some "hello") board25).isSome = true ∧
    (get_client_prompt 0 init_state board25).isSome = true ∧
    (client_disconnect 0 init_state).isSome = true := by
  obtain ⟨h1, h2, h3, h4⟩ := C10_no_panic_reachable init_state ReachableState.init
  exact ⟨h1, h2 0 (some "hello") board25, h3 0 board25, h4 0⟩

end Codenames
